import Mathlib

/-!
Verification of the LLMCreativeStudio debate core (python backend).

This file gives a shallow embedding, in Lean, of the pure logic of the
repository's python sources:

* `message_router.py`   — mention parsing and recipient selection,
* `conversation_manager.py` — addressing, role/character assignment commands,
* `character_manager.py` — persona (character) registry,
* `debate_manager.py`   — the debate state machine, consensus extraction,
  and score averaging,

and proves/refutes the frozen specification claims about them.

Modelling conventions:

* Python `str` is modelled as `List Char` (named `PyStr`); all string
  operations (`split`, `strip`, `replace`, `in`, `startswith`, `lower`,
  `capitalize`) are re-implemented by structural recursion so that every
  definition evaluates inside the kernel.  The implementations are
  faithful for ASCII text (python's unicode-aware case folding and
  whitespace classes agree with these on the ASCII inputs the program
  manipulates).
* Python `dict` is modelled as an insertion-ordered association list;
  assignment replaces the first matching key in place (python keeps the
  key's insertion position) and otherwise appends.
* Python `set` (used only for `completed_speakers`) is modelled as a
  duplicate-free list: only membership, `add`, `len` and clearing are used.
* `int(total / count)` in `calculate_average_scores` is a single correctly
  rounded binary64 division of naturals far below `2 ^ 53`, then truncation;
  a single rounding cannot carry this quotient across an integer (a
  non-integer quotient sits at least `1 / count` away from every integer,
  which dwarfs the relative rounding error), so it coincides with `Nat`
  floor division and is modelled as `total / count`.  The doubly rounded
  `int((score / total) * 100)` in `extract_consensus_scores` does NOT
  always coincide with exact rational truncation — python yields
  `int((58 / 200) * 100) = 28`, one below the exact `58 * 100 / 200 = 29` —
  so it is modelled bit-exactly by `pyIntDivMul100`: round the quotient to
  a 53-bit significand (ties to even), round the product with 100 to
  53 bits again, then truncate, which is IEEE-754 binary64 semantics for
  every reachable input `0 ≤ score ≤ total < 2 ^ 53`.
* The text produced by an LLM is abstracted by an oracle
  `gen : PyStr → DebateState → PyStr` mapping (speaker, current state) to
  the generated reply: `generate_round_prompt` is a pure function of the
  speaker, the state and the histories, and each (speaker, state) pair is
  queried at most once per debate, so quantifying over all such oracles
  covers every behaviour of `cm.generate_llm_response`.  Prompt text
  itself (consumed only by the oracle) is therefore not modelled.
* Character lookups (`character_manager.get_character_for_llm`) inside the
  debate manager are abstracted by `chars : PyStr → Option PyStr` giving
  the character name assigned to an LLM, if any.
-/

/-- Python strings, modelled as character lists. -/
abbrev PyStr := List Char

/-- Python substring test `sub in s`. -/
def pyContains (s sub : PyStr) : Bool :=
  if sub.isPrefixOf s then true
  else
    match s with
    | [] => false
    | _ :: t => pyContains t sub

/-- Python `s.split(sep, 1)` together with the containment test that always
guards it in the sources: `none` when `sep` does not occur in `s`, otherwise
the pieces before and after the first occurrence. -/
def pySplitOnce : PyStr → PyStr → Option (PyStr × PyStr)
  | s, sep =>
    if sep.isPrefixOf s then some ([], s.drop sep.length)
    else
      match s with
      | [] => none
      | c :: t => (pySplitOnce t sep).map (fun p => (c :: p.1, p.2))

/-- Worker for `pySplit`.  The fuel only bounds the number of separator
occurrences, which is at most `s.length` for the non-empty separators the
program uses, so the fuel never runs out at the call site. -/
def pySplitAux (sep : PyStr) : Nat → PyStr → List PyStr
  | 0, s => [s]
  | fuel + 1, s =>
    match pySplitOnce s sep with
    | none => [s]
    | some (pre, post) => pre :: pySplitAux sep fuel post

/-- Python `s.split(sep)` for a non-empty separator. -/
def pySplit (s sep : PyStr) : List PyStr :=
  pySplitAux sep s.length s

/-- Python `s.replace(old, new)` (all occurrences, non-empty `old`). -/
def pyReplace (s old new : PyStr) : PyStr :=
  List.intercalate new (pySplit s old)

/-- The characters python's `str.strip()` removes. -/
def pyIsSpace (c : Char) : Bool :=
  c = ' ' || c = '\t' || c = '\n' || c = '\r' || c = '\x0b' || c = '\x0c'

/-- Python `s.strip()`. -/
def pyStrip (s : PyStr) : PyStr :=
  ((s.dropWhile pyIsSpace).reverse.dropWhile pyIsSpace).reverse

/-- Python `s.lower()` (ASCII). -/
def pyLower (s : PyStr) : PyStr :=
  s.map Char.toLower

/-- Python `s.capitalize()` (ASCII): first character upper-cased, the rest
lower-cased. -/
def pyCapitalize (s : PyStr) : PyStr :=
  match s with
  | [] => []
  | c :: t => c.toUpper :: t.map Char.toLower

/-- Numeric value of a list of ASCII digits (python `int` on a digit string). -/
def digitsToNat (l : PyStr) : Nat :=
  l.foldl (fun n c => n * 10 + (c.toNat - 48)) 0

/-- Python `int(float(t))` for a string `t` containing only ASCII digits and
dots (the sources filter `t` down to exactly that character set first).
`float` accepts at most one dot and at least one digit, and truncation keeps
the digits before the dot; more than one dot (or no digit at all) raises
`ValueError`, modelled as `none`.  (For the at-most-15-digit integer parts
arising here the float round-trip is exact.) -/
def pyIntFloat (t : PyStr) : Option Nat :=
  match pySplit t ['.'] with
  | [intPart] => if intPart = [] then none else some (digitsToNat intPart)
  | [intPart, fracPart] =>
      if intPart = [] && fracPart = [] then none else some (digitsToNat intPart)
  | _ => none

/-- First maximal run of ASCII digits, as found by `re.search(r"\d+", t)`. -/
def firstDigitRun : PyStr → Option PyStr
  | [] => none
  | c :: t =>
    if c.isDigit then some (c :: t.takeWhile Char.isDigit)
    else firstDigitRun t

/-! Section: Python dictionaries as insertion-ordered association lists -/

/-- Python `d.get(k)` / `d[k]`. -/
def dictGet? {α : Type} : List (PyStr × α) → PyStr → Option α
  | [], _ => none
  | p :: t, k => if p.1 = k then some p.2 else dictGet? t k

/-- Python `d.get(k, v)`. -/
def dictGetD {α : Type} (d : List (PyStr × α)) (k : PyStr) (v : α) : α :=
  (dictGet? d k).getD v

/-- Python `d[k] = v`: replaces an existing binding in place, else appends. -/
def dictSet {α : Type} : List (PyStr × α) → PyStr → α → List (PyStr × α)
  | [], k, v => [(k, v)]
  | p :: t, k, v => if p.1 = k then (k, v) :: t else p :: dictSet t k v

/-- Python `del d[k]` (the key occurs at most once in a real dict). -/
def dictDel {α : Type} : List (PyStr × α) → PyStr → List (PyStr × α)
  | [], _ => []
  | p :: t, k => if p.1 = k then t else p :: dictDel t k

/-- Python `list(d.keys())`. -/
def dictKeys {α : Type} (d : List (PyStr × α)) : List PyStr :=
  d.map Prod.fst

/-- Python `set.add` on a duplicate-free list. -/
def pySetAdd (s : List PyStr) (x : PyStr) : List PyStr :=
  if x ∈ s then s else s ++ [x]


/-! Section: `message_router.py` — `MessageRouter` -/

namespace MessageRouter

/-- Model of `self.mention_map` (message_router.py:29-36), in dict insertion order.
Note that in this router `"@c"` maps to `"claude"`. -/
def mention_map : List (PyStr × PyStr) :=
  [("@a".data, "claude".data), ("@c".data, "claude".data), ("@g".data, "gemini".data),
   ("@claude".data, "claude".data), ("@chatgpt".data, "chatgpt".data),
   ("@gemini".data, "gemini".data)]

/-- One step of python's stable sort: insert `x` after every element whose key
is at least as long (so equal-length entries keep their original order), before
the first strictly shorter one.  Folding this over a list reproduces
`sorted(items, key=lambda x: len(x[0]), reverse=True)`. -/
def insertByLenDesc (x : PyStr × PyStr) : List (PyStr × PyStr) → List (PyStr × PyStr)
  | [] => [x]
  | y :: t => if y.1.length < x.1.length then x :: y :: t else y :: insertByLenDesc x t

/-- Python `sorted(self.mention_map.items(), key=lambda x: len(x[0]), reverse=True)`
(message_router.py:51). -/
def sorted_mentions : List (PyStr × PyStr) :=
  mention_map.foldl (fun acc x => insertByLenDesc x acc) []

/-- The `for mention, llm in sorted_mentions` loop of `parse_mentions`
(message_router.py:53-58). -/
def parse_mentions_go : List (PyStr × PyStr) → PyStr → Option PyStr × PyStr
  | [], message => (none, message)
  | (mention, llm) :: rest, message =>
    if pyContains message mention then
      (some llm, pyStrip (pyReplace message mention []))
    else parse_mentions_go rest message

/-- Model of `MessageRouter.parse_mentions` (message_router.py:39-58). -/
def parse_mentions (message : PyStr) : Option PyStr × PyStr :=
  parse_mentions_go sorted_mentions message

/-- Model of `MessageRouter.determine_recipient_llms` (message_router.py:60-91).
`target_llm` and `active_roles` are tested for python truthiness (`None` and
the empty string/dict are falsy).  `default_llms = None` selects the
hard-coded default list. -/
def determine_recipient_llms (target_llm : Option PyStr) (_message : PyStr)
    (active_roles : List (PyStr × PyStr)) (default_llms : Option (List PyStr)) :
    List PyStr :=
  let defaults := match default_llms with
    | none => ["claude".data, "chatgpt".data, "gemini".data]
    | some d => d
  let fallback := if active_roles = [] then defaults else dictKeys active_roles
  match target_llm with
  | some t => if t = [] then fallback else [t]
  | none => fallback

end MessageRouter

/-! Section: `conversation_manager.py` — `ConversationManager` -/

namespace ConversationManager

/-- Model of `self.mention_map` (conversation_manager.py:62-69), in dict insertion
order.  Unlike the router's table, here `"@c"` maps to `"chatgpt"`. -/
def mention_map : List (PyStr × PyStr) :=
  [("@a".data, "claude".data), ("@c".data, "chatgpt".data), ("@g".data, "gemini".data),
   ("@claude".data, "claude".data), ("@chatgpt".data, "chatgpt".data),
   ("@gemini".data, "gemini".data)]

/-- Model of `VALID_LLMS` (conversation_manager.py:41).  A python set; only membership
and `', '.join` are used, so a fixed enumeration order is adequate. -/
def VALID_LLMS : List PyStr :=
  ["claude".data, "chatgpt".data, "gemini".data]

/-- Model of `VALID_ROLES` (conversation_manager.py:44). -/
def VALID_ROLES : List PyStr :=
  ["assistant".data, "debater".data, "creative".data, "researcher".data]

/-- The `for mention, llm in self.mention_map.items()` loop of
`_parse_addressing` (conversation_manager.py:305-307): the table is scanned in
insertion order, not longest-token-first. -/
def parse_addressing_mentions : List (PyStr × PyStr) → PyStr → Option (PyStr × PyStr)
  | [], _ => none
  | (mention, llm) :: rest, message =>
    if pyContains message mention then
      some (llm, pyStrip (pyReplace message mention []))
    else parse_addressing_mentions rest message

/-- The character-name prefix scan of `_parse_addressing`
(conversation_manager.py:310-318). -/
def parse_addressing_characters : List (PyStr × PyStr) → PyStr → Option (PyStr × PyStr)
  | [], _ => none
  | (character_name, llm) :: rest, message =>
    if (pyLower character_name ++ ",".data).isPrefixOf (pyLower message) ||
       (pyLower character_name ++ " ".data).isPrefixOf (pyLower message) then
      some (llm, (message.drop character_name.length).dropWhile (fun c => c = ' ' || c = ','))
    else parse_addressing_characters rest message

/-- Model of `ConversationManager._parse_addressing` (conversation_manager.py:292-321),
parameterised by the current `characters` table. -/
def parse_addressing (characters : List (PyStr × PyStr)) (message : PyStr) :
    Option PyStr × PyStr :=
  match parse_addressing_mentions mention_map message with
  | some (llm, cleaned) => (some llm, cleaned)
  | none =>
    match parse_addressing_characters characters message with
    | some (llm, cleaned) => (some llm, cleaned)
    | none => (none, message)

/-- The state owned by `ConversationManager` that the role/character commands
touch. -/
structure State where
  active_roles : List (PyStr × PyStr)
  characters : List (PyStr × PyStr)
  llm_to_character : List (PyStr × PyStr)
deriving DecidableEq, Repr

/-- A `{"llm": ..., "response": ...}` reply dict (the constant
`referenced_message_id`/`message_intent` fields are omitted). -/
structure Reply where
  llm : PyStr
  response : PyStr
deriving DecidableEq, Repr

/-- Model of `ConversationManager._assign_role` (conversation_manager.py:432-474). -/
def assign_role (st : State) (llm role : PyStr) : State × List Reply :=
  if llm ∉ VALID_LLMS then
    (st, [⟨"system".data,
      "Unknown LLM: ".data ++ llm ++ ". Available options: claude, chatgpt, gemini".data⟩])
  else if role ∉ VALID_ROLES then
    (st, [⟨"system".data,
      "Invalid role: ".data ++ role ++
      ". Available options: assistant, debater, creative, researcher".data⟩])
  else
    let st' := { st with active_roles := dictSet st.active_roles llm role }
    let character_display := match dictGet? st'.llm_to_character llm with
      | some c => " (as ".data ++ c ++ ")".data
      | none => []
    (st', [⟨"system".data,
      "Assigned role '".data ++ role ++ "' to ".data ++ pyCapitalize llm ++
        character_display⟩])

/-- Model of `ConversationManager._assign_character` (conversation_manager.py:510-551).
This manager keeps its own `characters`/`llm_to_character` dicts, separate from
`CharacterManager`'s. -/
def assign_character (st : State) (llm character_name : PyStr) : State × List Reply :=
  if llm ∉ VALID_LLMS then
    (st, [⟨"system".data,
      "Unknown LLM: ".data ++ llm ++ ". Available options: claude, chatgpt, gemini".data⟩])
  else
    let st' := match st.characters.find? (fun p => pyLower p.1 = pyLower character_name) with
      | some p => { st with characters := dictDel st.characters p.1 }
      | none => st
    let st'' := match dictGet? st'.llm_to_character llm with
      | some old =>
        if (dictGet? st'.characters old).isSome then
          { st' with characters := dictDel st'.characters old }
        else st'
      | none => st'
    let stF := { st'' with
      characters := dictSet st''.characters character_name llm,
      llm_to_character := dictSet st''.llm_to_character llm character_name }
    (stF, [⟨"system".data,
      "Assigned character '".data ++ character_name ++ "' to ".data ++ pyCapitalize llm⟩])

/-- The inline recipient chain of `process_message`
(conversation_manager.py:113-118): `[target_llm] if target_llm else
list(active_roles.keys())`, then the default set when that list is empty or
the single element `None`. -/
def process_message_responding_llms (target_llm : Option PyStr)
    (active_roles : List (PyStr × PyStr)) : List (Option PyStr) :=
  let responding := match target_llm with
    | some t => if t = [] then (dictKeys active_roles).map some else [some t]
    | none => (dictKeys active_roles).map some
  if responding = [] || (responding.length = 1 && responding.headD none = none) then
    [some "claude".data, some "chatgpt".data, some "gemini".data]
  else responding

end ConversationManager

/-! Section: `character_manager.py` — `CharacterManager` -/

/-- Model of `models.Character` (models.py:76-82); the optional `id`/`created_at`
fields are never set by the character manager and are omitted. -/
structure Character where
  character_name : PyStr
  llm_name : PyStr
  background : PyStr
deriving DecidableEq, Repr

namespace LLMFactory

/-- Model of `LLMFactory.VALID_LLMS` (llm_factory.py:23); a python set, only membership
is used. -/
def VALID_LLMS : List PyStr :=
  ["claude".data, "chatgpt".data, "gemini".data]

end LLMFactory

namespace CharacterManager

/-- The two dictionaries owned by `CharacterManager`
(character_manager.py:28-29). -/
structure State where
  characters : List (PyStr × Character)
  llm_to_character : List (PyStr × PyStr)
deriving DecidableEq, Repr

/-- The empty registry built by `__init__`. -/
def initState : State := ⟨[], []⟩

/-- Model of `CharacterManager._remove_character` (character_manager.py:110-123). -/
def remove_character (st : State) (character_name : PyStr) : State :=
  match dictGet? st.characters character_name with
  | none => st
  | some c =>
    let st' := { st with characters := dictDel st.characters character_name }
    if dictGet? st'.llm_to_character c.llm_name = some character_name then
      { st' with llm_to_character := dictDel st'.llm_to_character c.llm_name }
    else st'

/-- Model of `CharacterManager.assign_character` (character_manager.py:32-77).
An invalid LLM raises `InvalidLLMError` before any mutation, modelled as
`Except.error` carrying the exception message. -/
def assign_character (st : State) (llm_name character_name background : PyStr) :
    Except PyStr (State × Character) :=
  let llm := pyLower llm_name
  if llm ∉ LLMFactory.VALID_LLMS then
    .error ("Unknown LLM: ".data ++ llm ++
      ". Available options: claude, chatgpt, gemini".data)
  else
    let st' := match st.characters.find? (fun p => pyLower p.1 = pyLower character_name) with
      | some p => remove_character st p.1
      | none => st
    let st'' := match dictGet? st'.llm_to_character llm with
      | some old => remove_character st' old
      | none => st'
    let c : Character := ⟨character_name, llm, background⟩
    .ok ({ characters := dictSet st''.characters character_name c,
           llm_to_character := dictSet st''.llm_to_character llm character_name }, c)

/-- Model of `CharacterManager.get_character_for_llm` (character_manager.py:79-92). -/
def get_character_for_llm (st : State) (llm_name : PyStr) : Option Character :=
  match dictGet? st.llm_to_character (pyLower llm_name) with
  | some character_name =>
    if character_name = [] then none else dictGet? st.characters character_name
  | none => none

/-- Applying a sequence of `assign_character` commands, starting from a given
state; a raised `InvalidLLMError` leaves the state unchanged (the exception
fires before any mutation). -/
def applyAssigns (st : State) (ops : List (PyStr × PyStr × PyStr)) : State :=
  ops.foldl (fun s op =>
    match assign_character s op.1 op.2.1 op.2.2 with
    | .ok (s', _) => s'
    | .error _ => s) st

/-- The registry invariant: character names are pairwise distinct even after
case folding, `llm_to_character` keys are distinct, and the two maps are
mutually inverse (a stored `Character` records its own key as its name and its
LLM points back at it, and every `llm → name` binding is backed by a stored
character for that LLM). -/
def Inv (st : State) : Prop :=
  ((dictKeys st.characters).Pairwise (fun a b => pyLower a ≠ pyLower b)) ∧
  ((dictKeys st.llm_to_character).Nodup) ∧
  (∀ p ∈ st.characters,
    p.2.character_name = p.1 ∧ dictGet? st.llm_to_character p.2.llm_name = some p.1) ∧
  (∀ q ∈ st.llm_to_character,
    ∃ c, dictGet? st.characters q.2 = some c ∧ c.llm_name = q.1)

end CharacterManager

/-! Section: `debate_manager.py` — `DebateManager` -/

/-- Model of `DebateState` (debate_manager.py:16-26). -/
inductive DebateState
  | IDLE
  | ROUND_1_OPENING
  | ROUND_2_QUESTIONING
  | ROUND_3_RESPONSES
  | ROUND_4_CONSENSUS
  | FINAL_SYNTHESIS
  | COMPLETE
deriving DecidableEq, Repr

namespace DebateState

/-- Python `state.value`. -/
def value : DebateState → Nat
  | .IDLE => 0
  | .ROUND_1_OPENING => 1
  | .ROUND_2_QUESTIONING => 2
  | .ROUND_3_RESPONSES => 3
  | .ROUND_4_CONSENSUS => 4
  | .FINAL_SYNTHESIS => 5
  | .COMPLETE => 6

/-- Python `DebateState(n)`.  The sources only evaluate this at `n = value + 1` with
`value < 4`, so `n ∈ {2, 3, 4}`; out-of-range values (which would raise
`ValueError`) are mapped to `COMPLETE` but are unreachable. -/
def ofValue : Nat → DebateState
  | 0 => .IDLE
  | 1 => .ROUND_1_OPENING
  | 2 => .ROUND_2_QUESTIONING
  | 3 => .ROUND_3_RESPONSES
  | 4 => .ROUND_4_CONSENSUS
  | 5 => .FINAL_SYNTHESIS
  | _ => .COMPLETE

/-- Python `state.name`. -/
def name : DebateState → PyStr
  | .IDLE => "IDLE".data
  | .ROUND_1_OPENING => "ROUND_1_OPENING".data
  | .ROUND_2_QUESTIONING => "ROUND_2_QUESTIONING".data
  | .ROUND_3_RESPONSES => "ROUND_3_RESPONSES".data
  | .ROUND_4_CONSENSUS => "ROUND_4_CONSENSUS".data
  | .FINAL_SYNTHESIS => "FINAL_SYNTHESIS".data
  | .COMPLETE => "COMPLETE".data

/-- Python `state.name.replace('_', ' ').title()`, used in round-transition
messages. -/
def titleName : DebateState → PyStr
  | .IDLE => "Idle".data
  | .ROUND_1_OPENING => "Round 1 Opening".data
  | .ROUND_2_QUESTIONING => "Round 2 Questioning".data
  | .ROUND_3_RESPONSES => "Round 3 Responses".data
  | .ROUND_4_CONSENSUS => "Round 4 Consensus".data
  | .FINAL_SYNTHESIS => "Final Synthesis".data
  | .COMPLETE => "Complete".data

/-- The four numbered rounds tested by `advance_debate`
(debate_manager.py:140-141). -/
def isNumberedRound : DebateState → Bool
  | .ROUND_1_OPENING | .ROUND_2_QUESTIONING | .ROUND_3_RESPONSES
  | .ROUND_4_CONSENSUS => true
  | _ => false

end DebateState

/-- One message dict appended to the debate / conversation histories.  Fields
that a given message kind does not set are `none`/`false` (absent dict keys). -/
structure Msg where
  sender : PyStr
  content : PyStr
  is_system : Bool
  debate_round : Nat
  debate_state : PyStr
  speaker_index : Option Nat
  total_speakers : Option Nat
  character : Option PyStr
  is_synthesis : Bool
deriving DecidableEq, Repr

/-- Round `num / den` (for `den > 0`) to the nearest integer, ties to even —
the rounding IEEE-754 binary64 applies to a scaled significand. -/
def rndNE (num den : Nat) : Nat :=
  let q := num / den
  let r := num % den
  if 2 * r < den then q
  else if den < 2 * r then q + 1
  else if q % 2 = 0 then q else q + 1

/-- Worker for `normShift`: double `w` until it reaches `t`, counting the
doublings.  The fuel `t` suffices because `w * 2 ^ t ≥ 2 ^ t > t` for
`w ≥ 1`. -/
def normShiftAux (t : Nat) : Nat → Nat → Nat
  | 0, _ => 0
  | f + 1, w => if t ≤ w then 0 else normShiftAux t f (2 * w) + 1

/-- The smallest `s` with `t ≤ v * 2 ^ s` (for `0 < v ≤ t`): the binary
normalisation shift that puts the quotient `v / t` into `[2 ^ (-s), 2 ^ (1-s))`. -/
def normShift (v t : Nat) : Nat :=
  normShiftAux t t v

/-- Bit-exact model of python's `int((v / t) * 100)` for `0 ≤ v ≤ t < 2 ^ 53`
(`v ≤ t` holds at the one call site, where `t` is the sum of a value set
containing `v`): the conversions of `v` and `t` to binary64 are exact, the
true division rounds the exact quotient to a 53-bit significand with ties to
even (`m` is that significand scaled by `2 ^ (52 + s)`), the product with the
exact constant 100 is rounded to 53 bits again (`m * 100` has 59 or 60 bits,
so `d ∈ {6, 7}` low bits are dropped), and `int` truncates toward zero.
Validated pointwise against cpython on the reachable score range. -/
def pyIntDivMul100 (v t : Nat) : Nat :=
  if v = 0 then 0
  else
    let s := normShift v t
    let m := rndNE (v * 2 ^ (52 + s)) t
    let n := m * 100
    let d := if n < 2 ^ 59 then 6 else 7
    let m2 := rndNE n (2 ^ d)
    m2 * 2 ^ d / 2 ^ (52 + s)

namespace DebateManager

/-- The mutable state of a `DebateManager` plus the shared
`cm.conversation_history` it appends into.  (`current_speaker` is initialised
to `None` and never written again in the sources, so it is omitted.) -/
structure State where
  state : DebateState
  topic : PyStr
  rounds : Nat
  speaker_order : List PyStr
  completed_speakers : List PyStr
  questions : List (PyStr × List (PyStr × PyStr))
  final_positions : List (PyStr × PyStr)
  consensus_scores : List (PyStr × List (PyStr × Nat))
  debate_history : List Msg
  conversation_history : List Msg
  waiting_for_user : Bool
  user_inputs : List (Nat × PyStr)
deriving DecidableEq, Repr

/-- The state built by `__init__` (debate_manager.py:53-72). -/
def initState : State :=
  ⟨.IDLE, [], 0, [], [], [], [], [], [], [], false, []⟩

/-- Python `character.character_name if character else speaker.capitalize()` — the
display name used for a participant throughout the prompts and extractors. -/
def displayName (chars : PyStr → Option PyStr) (llm : PyStr) : PyStr :=
  match chars llm with
  | some n => n
  | none => pyCapitalize llm

/-- The indexed fallback scan of `extract_questions`
(debate_manager.py:483-491): find the first sentence containing the target's
display name and a `?`, or a sentence containing the name whose successor
contains a `?`. -/
def findQuestionFallback (name : PyStr) : List PyStr → Option PyStr
  | [] => none
  | [s] =>
    if pyContains s name && pyContains s "?".data then some (pyStrip s) else none
  | s :: nxt :: rest =>
    if pyContains s name && pyContains s "?".data then some (pyStrip s)
    else if pyContains s name && pyContains nxt "?".data then
      some (pyStrip (s ++ ". ".data ++ nxt))
    else findQuestionFallback name (nxt :: rest)

/-- Model of `DebateManager.extract_questions` (debate_manager.py:447-496), returning
the map stored into `self.questions[speaker]`. -/
def extract_questions (chars : PyStr → Option PyStr) (speaker_order : List PyStr)
    (speaker response : PyStr) : List (PyStr × PyStr) :=
  let other_speakers := speaker_order.filter (fun s => s ≠ speaker)
  other_speakers.foldl (fun qmap other =>
    let other_name := displayName chars other
    let marker := "TO ".data ++ other_name ++ ":".data
    match pySplitOnce response marker with
    | some (_, after) =>
      let s0 := pyStrip after
      let s1 := ["TO ".data, "PART ".data, "\n\n".data].foldl (fun sec em =>
        match pySplitOnce sec em with
        | some (pre, _) => pyStrip pre
        | none => sec) s0
      dictSet qmap other s1
    | none =>
      match findQuestionFallback other_name (pySplit response ". ".data) with
      | some q => dictSet qmap other q
      | none => qmap) []

/-- One marker attempt inside `extract_consensus_scores`
(debate_manager.py:523-547): the text after the marker, up to the first `%`,
stripped and filtered to digits and dots, parsed as `int(float(_))` with a
first-digit-run regex fallback. -/
def parseScoreAfter (response marker : PyStr) : Option Nat :=
  match pySplitOnce response marker with
  | none => none
  | some (_, after) =>
    let afterStripped := pyStrip after
    let beforePercent := match pySplitOnce afterStripped "%".data with
      | some (pre, _) => pre
      | none => afterStripped
    let score_text := (pyStrip beforePercent).filter (fun c => c.isDigit || c = '.')
    match pyIntFloat score_text with
    | some n => some n
    | none => (firstDigitRun score_text).map digitsToNat

/-- The three marker variants tried in order for one participant
(debate_manager.py:517-521); the first variant that both occurs and yields a
parsable score wins. -/
def extractScoreFor (chars : PyStr → Option PyStr) (response other : PyStr) :
    Option Nat :=
  let other_name := displayName chars other
  let markers := [other_name ++ "'s position: ".data,
                  other_name ++ ": ".data,
                  other_name ++ " - ".data]
  markers.foldl (fun acc m =>
    match acc with
    | some v => some v
    | none => parseScoreAfter response m) none

/-- The per-participant extraction loop of `extract_consensus_scores`
(debate_manager.py:508-547), before the total is validated. -/
def extractRawScores (chars : PyStr → Option PyStr) (speaker_order : List PyStr)
    (response : PyStr) : List (PyStr × Nat) :=
  speaker_order.foldl (fun m other =>
    match extractScoreFor chars response other with
    | some n => dictSet m other n
    | none => m) []

/-- Python `sum(scores.values())`. -/
def sumValues (m : List (PyStr × Nat)) : Nat :=
  (m.map Prod.snd).sum

/-- Model of `DebateManager.extract_consensus_scores` (debate_manager.py:498-561),
returning the map stored into `self.consensus_scores[speaker]`: the raw
extraction followed by the 95–105 total check, rescaling each entry to the
double-precision `int((score / total) * 100)` — modelled bit-exactly by
`pyIntDivMul100` — only when the out-of-range total is positive. -/
def extract_consensus_scores (chars : PyStr → Option PyStr)
    (speaker_order : List PyStr) (response : PyStr) : List (PyStr × Nat) :=
  let raw := extractRawScores chars speaker_order response
  let total := sumValues raw
  if total < 95 || total > 105 then
    if total > 0 then raw.map (fun p => (p.1, pyIntDivMul100 p.2 total)) else raw
  else raw

/-- The body of the accumulation loop of `calculate_average_scores`
(debate_manager.py:586-592): running `(avg_scores, score_count)` pair updated
by one `(to_speaker, score)` entry. -/
def avgStep (acc : List (PyStr × Nat) × List (PyStr × Nat)) (ts : PyStr × Nat) :
    List (PyStr × Nat) × List (PyStr × Nat) :=
  (dictSet acc.1 ts.1 (dictGetD acc.1 ts.1 0 + ts.2),
   dictSet acc.2 ts.1 (dictGetD acc.2 ts.1 0 + 1))

/-- Model of `DebateManager.calculate_average_scores` (debate_manager.py:572-599):
zero-initialise `avg_scores` over the speaker order, accumulate sums and
per-target voter counts over all speakers' score maps, then divide each
accumulated sum by its own voter count (when positive) — never by the total
participant count. -/
def calculate_average_scores (speaker_order : List PyStr)
    (consensus_scores : List (PyStr × List (PyStr × Nat))) : List (PyStr × Nat) :=
  let avg0 := speaker_order.foldl (fun m s => dictSet m s 0) []
  let acc := consensus_scores.foldl (fun acc fs => fs.2.foldl avgStep acc) (avg0, [])
  acc.1.map (fun p =>
    if 0 < dictGetD acc.2 p.1 0 then (p.1, p.2 / dictGetD acc.2 p.1 0) else p)

/-- The multiset of scores assigned to target `z` across all voters (one entry
per speaker that scored `z`); the claim's sparse-average rule divides the sum
of this list by its length. -/
def scoresForTarget (consensus_scores : List (PyStr × List (PyStr × Nat)))
    (z : PyStr) : List Nat :=
  consensus_scores.flatMap (fun fs => (fs.2.filter (fun ts => ts.1 = z)).map Prod.snd)

/-- Model of `DebateManager.generate_synthesis` (debate_manager.py:362-445).  The
consensus/positions summaries feed only the synthesis prompt, which is
consumed by the abstracted generation oracle; the state effect is the two
history appends and the returned synthesis message. -/
def generate_synthesis (gen : PyStr → DebateState → PyStr) (st : State) :
    State × Msg :=
  let system_message : Msg :=
    ⟨"system".data,
     "Generating final synthesis based on weighted consensus scores...".data,
     true, 5, "FINAL_SYNTHESIS".data, none, none, none, false⟩
  let st' := { st with
    debate_history := st.debate_history ++ [system_message],
    conversation_history := st.conversation_history ++ [system_message] }
  let synthesizer :=
    if "claude".data ∈ st'.speaker_order then "claude".data
    else st'.speaker_order.headD []
  let synthesis_response : Msg :=
    ⟨"synthesis".data, gen synthesizer st'.state, false, 5,
     "FINAL_SYNTHESIS".data, none, none, none, true⟩
  ({ st' with
    debate_history := st'.debate_history ++ [synthesis_response],
    conversation_history := st'.conversation_history ++ [synthesis_response] },
   synthesis_response)

/-- The round-specific response processing of `advance_debate`
(debate_manager.py:160-169). -/
def processRoundExtraction (chars : PyStr → Option PyStr) (st : State)
    (speaker response : PyStr) : State :=
  match st.state with
  | .ROUND_2_QUESTIONING =>
    let q := extract_questions chars st.speaker_order speaker response
    { st with questions := dictSet st.questions speaker q }
  | .ROUND_3_RESPONSES =>
    { st with final_positions := dictSet st.final_positions speaker response }
  | .ROUND_4_CONSENSUS =>
    let sc := extract_consensus_scores chars st.speaker_order response
    { st with consensus_scores := dictSet st.consensus_scores speaker sc }
  | _ => st

/-- Model of `DebateManager.advance_debate` (debate_manager.py:124-243).  The `fuel`
argument only bounds the depth of the self-call at debate_manager.py:220;
every nested call strictly increases `state.value` within `{1, ..., 4}`, so
the recursion is at most 4 deep and the fuel-exhausted branch is unreachable
from `advance_debate` below (see `advanceDebateAux_fuel_irrelevant`). -/
def advanceDebateAux (gen : PyStr → DebateState → PyStr)
    (chars : PyStr → Option PyStr) : Nat → State → State × List Msg
  | 0, st => (st, [])
  | fuel + 1, st =>
    if st.state = .IDLE then (st, [])
    else if st.state.isNumberedRound then
      match st.speaker_order.find? (fun s => s ∉ st.completed_speakers) with
      | some next_speaker =>
        let response_content := gen next_speaker st.state
        let st1 := processRoundExtraction chars st next_speaker response_content
        let response : Msg :=
          ⟨next_speaker, response_content, false, st1.state.value, st1.state.name,
           some (st1.completed_speakers.length + 1), some st1.speaker_order.length,
           chars next_speaker, false⟩
        let st2 := { st1 with
          debate_history := st1.debate_history ++ [response],
          conversation_history := st1.conversation_history ++ [response],
          completed_speakers := pySetAdd st1.completed_speakers next_speaker }
        if st2.completed_speakers.length = st2.speaker_order.length then
          let st3 := { st2 with completed_speakers := [] }
          let round_limit := min st3.rounds 4
          if st3.state.value < round_limit then
            let st4 := { st3 with state := DebateState.ofValue (st3.state.value + 1) }
            let round_message : Msg :=
              ⟨"system".data,
               "Beginning Round ".data ++ Nat.toDigits 10 st4.state.value ++
                 ": ".data ++ st4.state.titleName,
               true, st4.state.value, st4.state.name, none, none, none, false⟩
            let st5 := { st4 with
              debate_history := st4.debate_history ++ [round_message],
              conversation_history := st4.conversation_history ++ [round_message] }
            if st5.state ≠ .FINAL_SYNTHESIS then
              let next := advanceDebateAux gen chars fuel st5
              (next.1, [response, round_message] ++ next.2)
            else (st5, [response, round_message])
          else
            let st4 := { st3 with state := .FINAL_SYNTHESIS }
            let syn := generate_synthesis gen st4
            ({ syn.1 with state := .COMPLETE }, [response, syn.2])
        else (st2, [response])
      | none => ({ st with state := .COMPLETE }, [])
    else if st.state = .FINAL_SYNTHESIS then
      let syn := generate_synthesis gen st
      ({ syn.1 with state := .COMPLETE }, [syn.2])
    else (st, [])

/-- Model of `DebateManager.advance_debate`; fuel 8 strictly exceeds the maximal
self-call depth 4. -/
def advance_debate (gen : PyStr → DebateState → PyStr)
    (chars : PyStr → Option PyStr) (st : State) : State × List Msg :=
  advanceDebateAux gen chars 8 st

/-- Model of `DebateManager.start_debate` (debate_manager.py:74-122), with the caller's
`cm.active_roles` keys passed in. -/
def start_debate (gen : PyStr → DebateState → PyStr)
    (chars : PyStr → Option PyStr) (active_role_keys : List PyStr)
    (topic : PyStr) (st : State) : State × List Msg :=
  let st1 := { st with
    topic := topic, rounds := 4, state := .ROUND_1_OPENING,
    questions := [], final_positions := [], consensus_scores := [],
    debate_history := [], completed_speakers := [],
    speaker_order :=
      if active_role_keys = [] then ["claude".data, "chatgpt".data, "gemini".data]
      else active_role_keys }
  let system_message : Msg :=
    ⟨"system".data,
     "Starting ".data ++ Nat.toDigits 10 st1.rounds ++
       "-round collaborative debate on: ".data ++ topic ++
       "\n\nRound 1: Opening statements\nRound 2: Defense & questions\nRound 3: Responses & final positions\nRound 4: Weighted consensus\nFinal: Synthesis of results".data,
     true, 0, st1.state.name, none, none, none, false⟩
  let st2 := { st1 with
    debate_history := st1.debate_history ++ [system_message],
    conversation_history := st1.conversation_history ++ [system_message] }
  let next := advance_debate gen chars st2
  (next.1, [system_message] ++ next.2)

/-- Model of `DebateManager.is_waiting_for_user` (debate_manager.py:563-570). -/
def is_waiting_for_user (st : State) : Bool :=
  st.waiting_for_user

/-- Concrete three-participant debate trace: iterated `advance_debate` calls
starting from a fresh Round-1 state with speakers claude, chatgpt and gemini,
the empty-response generator and no characters assigned. -/
def debateTrace3 : Nat → State
  | 0 => ⟨.ROUND_1_OPENING, [], 4, ["claude".data, "chatgpt".data, "gemini".data],
          [], [], [], [], [], [], false, []⟩
  | n + 1 => (advance_debate (fun _ _ => []) (fun _ => none) (debateTrace3 n)).1

/-- Messages emitted by call `n + 1` of the `debateTrace3` trace. -/
def debateResp3 (n : Nat) : List Msg :=
  (advance_debate (fun _ _ => []) (fun _ => none) (debateTrace3 n)).2

end DebateManager

/-! Section: Association-list lemmas -/

theorem dictGet?_set_self {α : Type} (d : List (PyStr × α)) (k : PyStr) (v : α) :
    dictGet? (dictSet d k v) k = some v := by
  induction d with
  | nil => simp [dictSet, dictGet?]
  | cons p t ih =>
    by_cases h : p.1 = k
    · simp [dictSet, dictGet?, h]
    · simp [dictSet, dictGet?, h, ih]

theorem dictGet?_set_ne {α : Type} (d : List (PyStr × α)) (k k' : PyStr) (v : α)
    (h : k' ≠ k) : dictGet? (dictSet d k v) k' = dictGet? d k' := by
  have hk : ¬(k = k') := fun hh => h hh.symm
  induction d with
  | nil => simp [dictSet, dictGet?, hk]
  | cons p t ih =>
    by_cases hp : p.1 = k
    · simp [dictSet, dictGet?, hp, hk]
    · simp [dictSet, dictGet?, hp, ih]

theorem dictGet?_del_ne {α : Type} (d : List (PyStr × α)) (k k' : PyStr)
    (h : k' ≠ k) : dictGet? (dictDel d k) k' = dictGet? d k' := by
  have hk : ¬(k = k') := fun hh => h hh.symm
  induction d with
  | nil => simp [dictDel, dictGet?]
  | cons p t ih =>
    by_cases hp : p.1 = k
    · simp [dictDel, dictGet?, hp, hk]
    · simp [dictDel, dictGet?, hp, ih]

theorem mem_dictDel {α : Type} (d : List (PyStr × α)) (k : PyStr) (p : PyStr × α)
    (h : p ∈ dictDel d k) : p ∈ d := by
  induction d with
  | nil => simp [dictDel] at h
  | cons q t ih =>
    by_cases hq : q.1 = k
    · simp only [dictDel, if_pos hq] at h
      exact List.mem_cons_of_mem _ h
    · simp only [dictDel, if_neg hq, List.mem_cons] at h
      rcases h with h | h
      · exact h ▸ List.mem_cons_self _ _
      · exact List.mem_cons_of_mem _ (ih h)

theorem keys_dictDel_sublist {α : Type} (d : List (PyStr × α)) (k : PyStr) :
    (dictKeys (dictDel d k)).Sublist (dictKeys d) := by
  induction d with
  | nil => simp [dictDel, dictKeys]
  | cons q t ih =>
    by_cases hq : q.1 = k
    · simp only [dictDel, if_pos hq, dictKeys]
      exact (List.sublist_cons_self _ _)
    · simp only [dictDel, if_neg hq, dictKeys, List.map_cons]
      exact List.Sublist.cons₂ _ ih


theorem dictKeys_nil {α : Type} : dictKeys ([] : List (PyStr × α)) = [] := rfl

theorem dictKeys_cons {α : Type} (p : PyStr × α) (t : List (PyStr × α)) :
    dictKeys (p :: t) = p.1 :: dictKeys t := rfl

theorem mem_dictKeys_of_mem {α : Type} {d : List (PyStr × α)} {p : PyStr × α}
    (h : p ∈ d) : p.1 ∈ dictKeys d :=
  List.mem_map_of_mem Prod.fst h

theorem mem_of_dictGet?_eq_some {α : Type} {d : List (PyStr × α)} {k : PyStr} {v : α}
    (h : dictGet? d k = some v) : (k, v) ∈ d := by
  induction d with
  | nil => simp [dictGet?] at h
  | cons p t ih =>
    by_cases hp : p.1 = k
    · simp only [dictGet?, if_pos hp, Option.some.injEq] at h
      have hp2 : p = (k, v) := by
        cases p
        simp only at hp h
        simp [hp, h]
      exact List.mem_cons.mpr (Or.inl hp2.symm)
    · simp only [dictGet?, if_neg hp] at h
      exact List.mem_cons_of_mem _ (ih h)

theorem dictGet?_eq_some_of_mem {α : Type} {d : List (PyStr × α)} {p : PyStr × α}
    (hnd : (dictKeys d).Nodup) (h : p ∈ d) : dictGet? d p.1 = some p.2 := by
  induction d with
  | nil => simp at h
  | cons q t ih =>
    have hnd' := List.nodup_cons.mp (dictKeys_cons q t ▸ hnd)
    rcases List.mem_cons.mp h with rfl | hmem
    · simp [dictGet?]
    · by_cases hq : q.1 = p.1
      · exact absurd (hq ▸ mem_dictKeys_of_mem hmem) hnd'.1
      · simp only [dictGet?, if_neg hq]
        exact ih hnd'.2 hmem

theorem dictKeys_dictSet {α : Type} (d : List (PyStr × α)) (k : PyStr) (v : α) :
    dictKeys (dictSet d k v) =
      if k ∈ dictKeys d then dictKeys d else dictKeys d ++ [k] := by
  induction d with
  | nil => simp [dictSet, dictKeys]
  | cons p t ih =>
    by_cases hp : p.1 = k
    · simp [dictSet, hp, dictKeys_cons]
    · have hkp : ¬ k = p.1 := fun hh => hp hh.symm
      by_cases hk : k ∈ dictKeys t <;>
        simp [dictSet, hp, dictKeys_cons, hkp, hk, ih]

theorem nodup_dictKeys_dictSet {α : Type} {d : List (PyStr × α)} {k : PyStr} {v : α}
    (hnd : (dictKeys d).Nodup) : (dictKeys (dictSet d k v)).Nodup := by
  rw [dictKeys_dictSet]
  by_cases hk : k ∈ dictKeys d
  · simpa [hk] using hnd
  · simp only [hk, if_false]
    refine List.Nodup.append hnd (List.nodup_singleton k) ?_
    intro x hx hx2
    rw [List.mem_singleton] at hx2
    exact hk (hx2 ▸ hx)

theorem mem_dictSet_elim {α : Type} {d : List (PyStr × α)} {k : PyStr} {v : α}
    {p : PyStr × α} (hnd : (dictKeys d).Nodup) (h : p ∈ dictSet d k v) :
    p = (k, v) ∨ (p ∈ d ∧ p.1 ≠ k) := by
  induction d with
  | nil =>
    simp [dictSet] at h
    exact Or.inl h
  | cons q t ih =>
    have hnd' := List.nodup_cons.mp (dictKeys_cons q t ▸ hnd)
    by_cases hq : q.1 = k
    · simp only [dictSet, if_pos hq, List.mem_cons] at h
      rcases h with rfl | hmem
      · exact Or.inl rfl
      · refine Or.inr ⟨List.mem_cons_of_mem _ hmem, fun hk => ?_⟩
        exact hnd'.1 (hq ▸ hk ▸ mem_dictKeys_of_mem hmem)
    · simp only [dictSet, if_neg hq, List.mem_cons] at h
      rcases h with rfl | hmem
      · exact Or.inr ⟨List.mem_cons_self _ _, hq⟩
      · rcases ih hnd'.2 hmem with h | ⟨hmem', hne⟩
        · exact Or.inl h
        · exact Or.inr ⟨List.mem_cons_of_mem _ hmem', hne⟩

theorem mem_dictSet_of_mem_ne {α : Type} {d : List (PyStr × α)} {k : PyStr} {v : α}
    {p : PyStr × α} (h : p ∈ d) (hne : p.1 ≠ k) : p ∈ dictSet d k v := by
  induction d with
  | nil => simp at h
  | cons q t ih =>
    by_cases hq : q.1 = k
    · simp only [dictSet, if_pos hq]
      rcases List.mem_cons.mp h with rfl | hmem
      · exact absurd hq hne
      · exact List.mem_cons_of_mem _ hmem
    · simp only [dictSet, if_neg hq]
      rcases List.mem_cons.mp h with rfl | hmem
      · exact List.mem_cons_self _ _
      · exact List.mem_cons_of_mem _ (ih hmem)

theorem self_mem_dictSet {α : Type} (d : List (PyStr × α)) (k : PyStr) (v : α) :
    (k, v) ∈ dictSet d k v :=
  mem_of_dictGet?_eq_some (dictGet?_set_self d k v)

theorem mem_dictDel_of_mem_ne {α : Type} {d : List (PyStr × α)} {k : PyStr}
    {p : PyStr × α} (h : p ∈ d) (hne : p.1 ≠ k) : p ∈ dictDel d k := by
  induction d with
  | nil => simp at h
  | cons q t ih =>
    by_cases hq : q.1 = k
    · simp only [dictDel, if_pos hq]
      rcases List.mem_cons.mp h with rfl | hmem
      · exact absurd hq hne
      · exact hmem
    · simp only [dictDel, if_neg hq]
      rcases List.mem_cons.mp h with rfl | hmem
      · exact List.mem_cons_self _ _
      · exact List.mem_cons_of_mem _ (ih hmem)

theorem fst_ne_of_mem_dictDel {α : Type} {d : List (PyStr × α)} {k : PyStr}
    {p : PyStr × α} (hnd : (dictKeys d).Nodup) (h : p ∈ dictDel d k) : p.1 ≠ k := by
  induction d with
  | nil => simp [dictDel] at h
  | cons q t ih =>
    have hnd' := List.nodup_cons.mp (dictKeys_cons q t ▸ hnd)
    by_cases hq : q.1 = k
    · simp only [dictDel, if_pos hq] at h
      intro hk
      exact hnd'.1 (hq ▸ hk ▸ mem_dictKeys_of_mem h)
    · simp only [dictDel, if_neg hq, List.mem_cons] at h
      rcases h with rfl | hmem
      · exact hq
      · exact ih hnd'.2 hmem

theorem dictGet?_del_self {α : Type} {d : List (PyStr × α)} {k : PyStr}
    (hnd : (dictKeys d).Nodup) : dictGet? (dictDel d k) k = none := by
  cases hv : dictGet? (dictDel d k) k with
  | none => rfl
  | some v =>
    have := fst_ne_of_mem_dictDel hnd (mem_of_dictGet?_eq_some hv)
    simp at this

theorem nodup_dictKeys_dictDel {α : Type} {d : List (PyStr × α)} {k : PyStr}
    (hnd : (dictKeys d).Nodup) : (dictKeys (dictDel d k)).Nodup :=
  (keys_dictDel_sublist d k).nodup hnd

/-! Section: Helper lemmas for the debate state machine -/

namespace DebateManager

@[simp] theorem processRoundExtraction_state (chars : PyStr → Option PyStr)
    (st : State) (speaker response : PyStr) :
    (processRoundExtraction chars st speaker response).state = st.state := by
  cases hst : st.state <;> simp [processRoundExtraction, hst]

@[simp] theorem processRoundExtraction_speaker_order (chars : PyStr → Option PyStr)
    (st : State) (speaker response : PyStr) :
    (processRoundExtraction chars st speaker response).speaker_order = st.speaker_order := by
  cases hst : st.state <;> simp [processRoundExtraction, hst]

@[simp] theorem processRoundExtraction_completed_speakers (chars : PyStr → Option PyStr)
    (st : State) (speaker response : PyStr) :
    (processRoundExtraction chars st speaker response).completed_speakers =
      st.completed_speakers := by
  cases hst : st.state <;> simp [processRoundExtraction, hst]

@[simp] theorem processRoundExtraction_rounds (chars : PyStr → Option PyStr)
    (st : State) (speaker response : PyStr) :
    (processRoundExtraction chars st speaker response).rounds = st.rounds := by
  cases hst : st.state <;> simp [processRoundExtraction, hst]

@[simp] theorem processRoundExtraction_waiting_for_user (chars : PyStr → Option PyStr)
    (st : State) (speaker response : PyStr) :
    (processRoundExtraction chars st speaker response).waiting_for_user =
      st.waiting_for_user := by
  cases hst : st.state <;> simp [processRoundExtraction, hst]

@[simp] theorem processRoundExtraction_user_inputs (chars : PyStr → Option PyStr)
    (st : State) (speaker response : PyStr) :
    (processRoundExtraction chars st speaker response).user_inputs = st.user_inputs := by
  cases hst : st.state <;> simp [processRoundExtraction, hst]

@[simp] theorem generate_synthesis_state (gen : PyStr → DebateState → PyStr) (st : State) :
    (generate_synthesis gen st).1.state = st.state := rfl

@[simp] theorem generate_synthesis_speaker_order (gen : PyStr → DebateState → PyStr)
    (st : State) : (generate_synthesis gen st).1.speaker_order = st.speaker_order := rfl

@[simp] theorem generate_synthesis_completed_speakers (gen : PyStr → DebateState → PyStr)
    (st : State) :
    (generate_synthesis gen st).1.completed_speakers = st.completed_speakers := rfl

@[simp] theorem generate_synthesis_rounds (gen : PyStr → DebateState → PyStr) (st : State) :
    (generate_synthesis gen st).1.rounds = st.rounds := rfl

@[simp] theorem generate_synthesis_waiting_for_user (gen : PyStr → DebateState → PyStr)
    (st : State) : (generate_synthesis gen st).1.waiting_for_user = st.waiting_for_user := rfl

@[simp] theorem generate_synthesis_user_inputs (gen : PyStr → DebateState → PyStr)
    (st : State) : (generate_synthesis gen st).1.user_inputs = st.user_inputs := rfl

/-- Fact: `advance_debate` never touches the participant order, the round budget, the
user-pause flag, or the per-round user-input map. -/
theorem advanceDebateAux_preserved (gen : PyStr → DebateState → PyStr)
    (chars : PyStr → Option PyStr) :
    ∀ (f : Nat) (st : State),
      (advanceDebateAux gen chars f st).1.speaker_order = st.speaker_order ∧
      (advanceDebateAux gen chars f st).1.rounds = st.rounds ∧
      (advanceDebateAux gen chars f st).1.waiting_for_user = st.waiting_for_user ∧
      (advanceDebateAux gen chars f st).1.user_inputs = st.user_inputs := by
  intro f
  induction f with
  | zero => intro st; simp [advanceDebateAux]
  | succ f ih =>
    intro st
    simp only [advanceDebateAux]
    split
    · simp
    · split
      · split
        · split
          · split
            · split
              · refine ⟨?_, ?_, ?_, ?_⟩
                · rw [(ih _).1]; simp
                · rw [(ih _).2.1]; simp
                · rw [(ih _).2.2.1]; simp
                · rw [(ih _).2.2.2]; simp
              · simp_all
            · simp_all
          · simp_all
        · simp_all
      · split
        · simp
        · simp

theorem advanceDebateAux_completed_subset (gen : PyStr → DebateState → PyStr)
    (chars : PyStr → Option PyStr) :
    ∀ (f : Nat) (st : State),
      (∀ x ∈ st.completed_speakers, x ∈ st.speaker_order) →
      ∀ x ∈ (advanceDebateAux gen chars f st).1.completed_speakers,
        x ∈ (advanceDebateAux gen chars f st).1.speaker_order := by
  intro f
  induction f with
  | zero =>
    intro st h
    simpa [advanceDebateAux] using h
  | succ f ih =>
    intro st h
    rw [(advanceDebateAux_preserved gen chars (f + 1) st).1]
    intro x hx
    simp only [advanceDebateAux] at hx
    split at hx
    · exact h x hx
    · split at hx
      · rcases hfind2 : List.find? (fun s => decide (s ∉ st.completed_speakers))
            st.speaker_order with _ | s
        all_goals rw [hfind2] at hx
        · simp only at hx
          exact h x hx
        · have hs : s ∈ st.speaker_order := List.mem_of_find?_eq_some hfind2
          simp only at hx
          split at hx
          · split at hx
            · split at hx
              · have hrec := ih _ (by intro y hy; simp at hy) x hx
                rw [(advanceDebateAux_preserved gen chars f _).1] at hrec
                simpa using hrec
              · simp at hx
            · simp at hx
          · simp only [processRoundExtraction_completed_speakers] at hx
            unfold pySetAdd at hx
            split at hx
            · exact h x hx
            · rcases List.mem_append.mp hx with hx | hx
              · exact h x hx
              · rw [List.mem_singleton.mp hx]
                exact hs
      · split at hx
        · exact h x (by simpa using hx)
        · exact h x hx

/-- One `advance_debate` call in a numbered round that does not finish the
round: exactly the polled speaker's message is emitted, the state does not
change, and the polled speaker is added to the completed set. -/
theorem advanceDebateAux_step_incomplete (gen : PyStr → DebateState → PyStr)
    (chars : PyStr → Option PyStr) (f : Nat) (st : State) (s : PyStr)
    (hnum : st.state.isNumberedRound = true)
    (hfind : List.find? (fun x => decide (x ∉ st.completed_speakers))
        st.speaker_order = some s)
    (hlen : (pySetAdd st.completed_speakers s).length ≠ st.speaker_order.length) :
    (advanceDebateAux gen chars (f + 1) st).2.map Msg.sender = [s] ∧
    (advanceDebateAux gen chars (f + 1) st).1.state = st.state ∧
    (advanceDebateAux gen chars (f + 1) st).1.completed_speakers =
      pySetAdd st.completed_speakers s := by
  have hne : ¬ st.state = DebateState.IDLE := by
    intro hh
    rw [hh] at hnum
    simp [DebateState.isNumberedRound] at hnum
  simp only [advanceDebateAux, if_neg hne, hnum, if_true, hfind]
  simp only [processRoundExtraction_completed_speakers,
    processRoundExtraction_speaker_order]
  rw [if_neg hlen]
  simp

/-- Fact: stepping a numbered round below the round cap yields the next
numbered round, never `FINAL_SYNTHESIS`. -/
theorem ofValue_succ_facts (d : DebateState) (r : Nat)
    (hnum : d.isNumberedRound = true) (hval : d.value < min r 4) :
    (DebateState.ofValue (d.value + 1)).isNumberedRound = true ∧
    DebateState.ofValue (d.value + 1) ≠ DebateState.FINAL_SYNTHESIS := by
  have h4 : d.value < 4 := lt_of_lt_of_le hval (Nat.min_le_right _ _)
  cases d
  case IDLE => exact absurd hnum (by decide)
  case ROUND_1_OPENING => exact ⟨by decide, by decide⟩
  case ROUND_2_QUESTIONING => exact ⟨by decide, by decide⟩
  case ROUND_3_RESPONSES => exact ⟨by decide, by decide⟩
  case ROUND_4_CONSENSUS => exact absurd h4 (by decide)
  case FINAL_SYNTHESIS => exact absurd hnum (by decide)
  case COMPLETE => exact absurd hnum (by decide)

/-- Fact: when the poll completes a numbered round and the round cap is
reached, the call clears `completed_speakers`, runs the synthesis and ends in
`COMPLETE` (the else-branch of debate_manager.py:204-232). -/
theorem advanceDebateAux_step_complete_limit (gen : PyStr → DebateState → PyStr)
    (chars : PyStr → Option PyStr) (f : Nat) (st : State) (s : PyStr)
    (hnum : st.state.isNumberedRound = true)
    (hfind : List.find? (fun x => decide (x ∉ st.completed_speakers))
        st.speaker_order = some s)
    (hlen : (pySetAdd st.completed_speakers s).length = st.speaker_order.length)
    (hval : ¬ st.state.value < min st.rounds 4) :
    (advanceDebateAux gen chars (f + 1) st).1.state = DebateState.COMPLETE ∧
    (advanceDebateAux gen chars (f + 1) st).1.completed_speakers = [] := by
  have hne : ¬ st.state = DebateState.IDLE := by
    intro hh
    rw [hh] at hnum
    simp [DebateState.isNumberedRound] at hnum
  simp only [advanceDebateAux, if_neg hne, hnum, if_true, hfind]
  simp only [processRoundExtraction_completed_speakers,
    processRoundExtraction_speaker_order, processRoundExtraction_state,
    processRoundExtraction_rounds]
  rw [if_pos hlen, if_neg hval]
  simp

/-- Fact: when the poll completes a numbered round below the round cap, the
call behaves exactly as one further call made from an intermediate state whose
`completed_speakers` has been cleared and whose round has been advanced — the
in-place reset and synchronous recursion of debate_manager.py:206-220. -/
theorem advanceDebateAux_step_complete_advance (gen : PyStr → DebateState → PyStr)
    (chars : PyStr → Option PyStr) (f : Nat) (st : State) (s : PyStr)
    (hnum : st.state.isNumberedRound = true)
    (hfind : List.find? (fun x => decide (x ∉ st.completed_speakers))
        st.speaker_order = some s)
    (hlen : (pySetAdd st.completed_speakers s).length = st.speaker_order.length)
    (hval : st.state.value < min st.rounds 4) :
    ∃ st₅ : State,
      (advanceDebateAux gen chars (f + 1 + 1) st).1 =
        (advanceDebateAux gen chars (f + 1) st₅).1 ∧
      st₅.completed_speakers = [] ∧
      st₅.state = DebateState.ofValue (st.state.value + 1) ∧
      st₅.speaker_order = st.speaker_order ∧
      st₅.rounds = st.rounds := by
  have hne : ¬ st.state = DebateState.IDLE := by
    intro hh
    rw [hh] at hnum
    simp [DebateState.isNumberedRound] at hnum
  have hguard : DebateState.ofValue (st.state.value + 1) ≠
      DebateState.FINAL_SYNTHESIS :=
    (ofValue_succ_facts st.state st.rounds hnum hval).2
  rw [advanceDebateAux]
  simp only [if_neg hne, hnum, if_true, hfind]
  simp only [processRoundExtraction_completed_speakers,
    processRoundExtraction_speaker_order, processRoundExtraction_state,
    processRoundExtraction_rounds]
  rw [if_pos hlen, if_pos hval, if_pos hguard]
  exact ⟨_, rfl, by simp, by simp, by simp, by simp⟩

end DebateManager

/-! Section: Claim theorems -/

/-- C8: calling `advance_debate` while the debate state is `IDLE` or `COMPLETE`
returns an empty response list and never raises (the embedding is a total
function), and the debate state — histories included — is left unchanged. -/
theorem c8_protocol_violation_noop (gen : PyStr → DebateState → PyStr)
    (chars : PyStr → Option PyStr) (st : DebateManager.State)
    (h : st.state = DebateState.IDLE ∨ st.state = DebateState.COMPLETE) :
    DebateManager.advance_debate gen chars st = (st, []) := by
  rcases h with h | h
  · simp [DebateManager.advance_debate, DebateManager.advanceDebateAux, h]
  · simp [DebateManager.advance_debate, DebateManager.advanceDebateAux, h,
      DebateState.isNumberedRound]

/-- Witness for C8 at a concrete `IDLE` state. -/
theorem c8_protocol_violation_noop_witness :
    DebateManager.advance_debate (fun _ _ => []) (fun _ => none)
      DebateManager.initState = (DebateManager.initState, []) :=
  c8_protocol_violation_noop (fun _ _ => []) (fun _ => none)
    DebateManager.initState (Or.inl rfl)

/-- C2 is wrong about the code: `advance_debate` never sets `waiting_for_user`
and never records a user input (first conjunct: both fields are invariant
under every call, for every oracle and every state), and on the concrete
two-participant debate of the claim the machine cascades straight into
Round 2 after Round 1 completes with `is_waiting_for_user()` still `false`
and the per-round user-input map still empty.  (`process_user_input` does
not exist on `DebateManager` at all; its callers at
conversation_manager.py:99 and conversation_manager.py:388 would raise
`AttributeError`.) -/
theorem c2_user_pause_not_implemented :
    (∀ (gen : PyStr → DebateState → PyStr) (chars : PyStr → Option PyStr)
        (st : DebateManager.State),
      (DebateManager.advance_debate gen chars st).1.waiting_for_user =
        st.waiting_for_user ∧
      (DebateManager.advance_debate gen chars st).1.user_inputs = st.user_inputs) ∧
    DebateManager.is_waiting_for_user
      (DebateManager.advance_debate (fun _ _ => "r".data) (fun _ => none)
        (DebateManager.start_debate (fun _ _ => "r".data) (fun _ => none)
          ["claude".data, "chatgpt".data] "T".data DebateManager.initState).1).1
      = false ∧
    (DebateManager.advance_debate (fun _ _ => "r".data) (fun _ => none)
        (DebateManager.start_debate (fun _ _ => "r".data) (fun _ => none)
          ["claude".data, "chatgpt".data] "T".data DebateManager.initState).1).1.state
      = DebateState.ROUND_2_QUESTIONING ∧
    (DebateManager.advance_debate (fun _ _ => "r".data) (fun _ => none)
        (DebateManager.start_debate (fun _ _ => "r".data) (fun _ => none)
          ["claude".data, "chatgpt".data] "T".data DebateManager.initState).1).1.user_inputs
      = [] := by
  refine ⟨?_, ?_, ?_, ?_⟩
  · intro gen chars st
    exact ⟨(DebateManager.advanceDebateAux_preserved gen chars 8 st).2.2.1,
      (DebateManager.advanceDebateAux_preserved gen chars 8 st).2.2.2⟩
  · decide
  · decide
  · decide

/-- C9: recipient selection — an explicit (non-empty) target yields exactly the
singleton of that target regardless of the role registry; with no target and a
non-empty role registry, exactly the registry's keys in iteration order; with
no target and an empty registry, exactly the configured default set.  Shown
both for `MessageRouter.determine_recipient_llms` and for the inline chain of
`ConversationManager.process_message`. -/
theorem c9_recipient_fallback_chain (t msg : PyStr) (roles : List (PyStr × PyStr))
    (ht : t ≠ []) (hr : roles ≠ []) :
    MessageRouter.determine_recipient_llms (some t) msg roles none = [t] ∧
    MessageRouter.determine_recipient_llms none msg roles none = dictKeys roles ∧
    MessageRouter.determine_recipient_llms none msg [] none =
      ["claude".data, "chatgpt".data, "gemini".data] ∧
    ConversationManager.process_message_responding_llms (some t) roles = [some t] ∧
    ConversationManager.process_message_responding_llms none roles =
      (dictKeys roles).map some ∧
    ConversationManager.process_message_responding_llms none [] =
      [some "claude".data, some "chatgpt".data, some "gemini".data] := by
  refine ⟨?_, ?_, ?_, ?_, ?_, ?_⟩
  · simp [MessageRouter.determine_recipient_llms, ht]
  · simp [MessageRouter.determine_recipient_llms, hr]
  · simp [MessageRouter.determine_recipient_llms]
  · simp [ConversationManager.process_message_responding_llms, ht]
  · cases roles with
    | nil => exact absurd rfl hr
    | cons p rs =>
      simp [ConversationManager.process_message_responding_llms, dictKeys]
  · simp [ConversationManager.process_message_responding_llms, dictKeys]

/-- Witness for C9 at a concrete target and one-entry role registry. -/
theorem c9_recipient_fallback_chain_witness :
    MessageRouter.determine_recipient_llms (some "claude".data) []
      [("claude".data, "debater".data)] none = ["claude".data] ∧
    MessageRouter.determine_recipient_llms none []
      [("claude".data, "debater".data)] none =
      dictKeys [("claude".data, "debater".data)] ∧
    MessageRouter.determine_recipient_llms none [] [] none =
      ["claude".data, "chatgpt".data, "gemini".data] ∧
    ConversationManager.process_message_responding_llms (some "claude".data)
      [("claude".data, "debater".data)] = [some "claude".data] ∧
    ConversationManager.process_message_responding_llms none
      [("claude".data, "debater".data)] =
      (dictKeys [("claude".data, "debater".data)]).map some ∧
    ConversationManager.process_message_responding_llms none [] =
      [some "claude".data, some "chatgpt".data, some "gemini".data] :=
  c9_recipient_fallback_chain "claude".data [] [("claude".data, "debater".data)]
    (by decide) (by decide)

/-- C5: `MessageRouter.parse_mentions` does resolve `"@claude hello"` to the
`"@claude"` mapping with remaining text `"hello"`, scanning a table that is a
longest-first (length-descending) ordering of a mention map containing both
`"@c"` and `"@claude"` — but `ConversationManager._parse_addressing`, the
resolver `process_message` actually calls, scans its table in insertion order
and resolves the same message through the `"@c"` mapping (which that table
binds to `"chatgpt"`), returning `("chatgpt", "laude hello")`. -/
theorem c5_addressing_longest_match :
    MessageRouter.parse_mentions "@claude hello".data =
      (some "claude".data, "hello".data) ∧
    MessageRouter.sorted_mentions.Pairwise (fun a b => b.1.length ≤ a.1.length) ∧
    MessageRouter.sorted_mentions.Perm MessageRouter.mention_map ∧
    ("@c".data, "claude".data) ∈ MessageRouter.mention_map ∧
    ("@claude".data, "claude".data) ∈ MessageRouter.mention_map ∧
    ConversationManager.parse_addressing [] "@claude hello".data =
      (some "chatgpt".data, "laude hello".data) ∧
    dictGet? ConversationManager.mention_map "@c".data = some "chatgpt".data := by
  refine ⟨by decide, by decide, by decide, by decide, by decide, by decide, by decide⟩

/-- C10: a Round-4 response with no extractable score leaves the speaker's
score map empty, and the proportional rescaling is skipped whenever the
extracted total is zero (it runs only for a strictly positive out-of-range
total), so the total never appears as a divisor of anything when it is zero;
the zero-total out-of-tolerance branch changes nothing. -/
theorem c10_zero_total_guard (chars : PyStr → Option PyStr)
    (order : List PyStr) (resp : PyStr) :
    (DebateManager.extractRawScores chars order resp = [] →
      DebateManager.extract_consensus_scores chars order resp = []) ∧
    (DebateManager.sumValues (DebateManager.extractRawScores chars order resp) = 0 →
      DebateManager.extract_consensus_scores chars order resp =
        DebateManager.extractRawScores chars order resp) := by
  constructor
  · intro h
    simp [DebateManager.extract_consensus_scores, h, DebateManager.sumValues]
  · intro h
    simp [DebateManager.extract_consensus_scores, h]

/-- Witness for C10: a response with no marker at all, and one whose only
extracted score is `0`. -/
theorem c10_zero_total_guard_witness :
    DebateManager.extract_consensus_scores (fun _ => none) ["claude".data]
      "no scores here".data = [] ∧
    DebateManager.extract_consensus_scores (fun _ => none) ["claude".data]
      "Claude: 0%".data =
      DebateManager.extractRawScores (fun _ => none) ["claude".data]
        "Claude: 0%".data :=
  ⟨(c10_zero_total_guard (fun _ => none) ["claude".data] "no scores here".data).1
      (by decide),
   (c10_zero_total_guard (fun _ => none) ["claude".data] "Claude: 0%".data).2
      (by decide)⟩

/-! Arithmetic helpers for the consensus-normalization claim. -/

theorem add_div_le_div (a b t : Nat) : a / t + b / t ≤ (a + b) / t := by
  rcases Nat.eq_zero_or_pos t with ht | ht
  · simp [ht]
  · rw [Nat.le_div_iff_mul_le ht]
    calc (a / t + b / t) * t = a / t * t + b / t * t := by ring
    _ ≤ a + b := Nat.add_le_add (Nat.div_mul_le_self a t) (Nat.div_mul_le_self b t)

theorem sum_div_le_div_sum (l : List Nat) (t : Nat) :
    (l.map (fun v => v / t)).sum ≤ l.sum / t := by
  induction l with
  | nil => simp
  | cons a l ih =>
    simp only [List.map_cons, List.sum_cons]
    calc a / t + (l.map (fun v => v / t)).sum ≤ a / t + l.sum / t :=
      Nat.add_le_add_left ih _
    _ ≤ (a + l.sum) / t := add_div_le_div a l.sum t

theorem lt_mul_div_succ (a t : Nat) (ht : 0 < t) : a < t * (a / t) + t := by
  conv_lhs => rw [← Nat.div_add_mod a t]
  exact Nat.add_lt_add_left (Nat.mod_lt a ht) _

theorem sum_lt_mul_divsum_add_length (l : List Nat) (t : Nat) (ht : 0 < t)
    (hl : l ≠ []) :
    l.sum < t * ((l.map (fun v => v / t)).sum + l.length) := by
  induction l with
  | nil => exact absurd rfl hl
  | cons a l ih =>
    rcases eq_or_ne l [] with rfl | hl'
    · simp only [List.map_cons, List.map_nil, List.sum_cons, List.sum_nil,
        List.length_cons, List.length_nil]
      calc a < t * (a / t) + t := lt_mul_div_succ a t ht
      _ = t * (a / t + 0 + (0 + 1)) := by ring
    · simp only [List.map_cons, List.sum_cons, List.length_cons]
      calc a + l.sum
          < (t * (a / t) + t) + t * ((l.map (fun v => v / t)).sum + l.length) :=
            Nat.add_lt_add (lt_mul_div_succ a t ht) (ih hl')
      _ = t * (a / t + (l.map (fun v => v / t)).sum + (l.length + 1)) := by ring

theorem sum_map_mul_100 (l : List Nat) : (l.map (fun v => v * 100)).sum = l.sum * 100 := by
  induction l with
  | nil => simp
  | cons a l ih =>
    simp only [List.map_cons, List.sum_cons, ih]
    ring

theorem sum_le_sum_of_le {α : Type} (l : List α) (f g : α → Nat)
    (h : ∀ x ∈ l, f x ≤ g x) : (l.map f).sum ≤ (l.map g).sum := by
  induction l with
  | nil => simp
  | cons a l ih =>
    simp only [List.map_cons, List.sum_cons]
    exact Nat.add_le_add (h a (by simp))
      (ih (fun x hx => h x (List.mem_cons_of_mem a hx)))

theorem sum_map_add_one {α : Type} (l : List α) (g : α → Nat) :
    (l.map (fun x => g x + 1)).sum = (l.map g).sum + l.length := by
  induction l with
  | nil => simp
  | cons a l ih =>
    simp only [List.map_cons, List.sum_cons, List.length_cons, ih]
    ring

/-- Fact: round-to-nearest never moves the scaled value by more than half the
denominator — the two-sided half-ulp bound for `rndNE`. -/
theorem rndNE_bounds (num den : Nat) (hden : 0 < den) :
    2 * (rndNE num den * den) ≤ 2 * num + den ∧
    2 * num ≤ 2 * (rndNE num den * den) + den := by
  have hdm : num / den * den + num % den = num := Nat.div_add_mod' num den
  have hmod : num % den < den := Nat.mod_lt _ hden
  have hzB : 0 ≤ num % den := Nat.zero_le _
  have hzA : 0 ≤ num / den * den := Nat.zero_le _
  have hx : (num / den + 1) * den = num / den * den + den := by ring
  simp only [rndNE]
  split
  next h => exact ⟨by linarith, by linarith⟩
  next h1 =>
    split
    next h => exact ⟨by linarith, by linarith⟩
    next h2 =>
      split
      next h => exact ⟨by linarith, by linarith⟩
      next h => exact ⟨by linarith, by linarith⟩

/-- Fact: two half-ulp roundings (a division by `t` rounded at scale `P`, then
a drop of `D ≤ 128` low bits after multiplying by 100) move the scaled value
`v * 100 * P` by at most `(D / 2 + 50) * t ≤ 114 * t < P`, which cannot bridge
the gap `P` up to the next multiple of `t * P`; hence the truncated result is
the exactly truncated percentage `v * 100 / t`, or one below it — one below
only when `t` divides `v * 100`. -/
theorem rnd_chain_core (v t P m m2 D : Nat) (ht0 : 0 < t) (hP0 : 0 < P)
    (hD : D ≤ 128) (hPt : 114 * t < P)
    (h1a : 2 * (m * t) ≤ 2 * (v * P) + t) (h1b : 2 * (v * P) ≤ 2 * (m * t) + t)
    (h2a : 2 * (m2 * D) ≤ 2 * (m * 100) + D) (h2b : 2 * (m * 100) ≤ 2 * (m2 * D) + D) :
    m2 * D / P ≤ v * 100 / t ∧
    v * 100 / t ≤ m2 * D / P + 1 ∧
    (¬ t ∣ v * 100 → m2 * D / P = v * 100 / t) := by
  have hPtpos : 0 < P * t := Nat.mul_pos hP0 ht0
  have hAB1 : m2 * D * t ≤ v * 100 * P + 114 * t := by
    have s2 : (2 * (m2 * D)) * t ≤ (2 * (m * 100) + D) * t := Nat.mul_le_mul_right t h2a
    have s1 : (2 * (m * t)) * 100 ≤ (2 * (v * P) + t) * 100 := Nat.mul_le_mul_right 100 h1a
    have sD : D * t ≤ 128 * t := Nat.mul_le_mul_right t hD
    have e2 : (2 * (m * 100) + D) * t = 2 * ((m * t) * 100) + D * t := by ring
    have e1 : (2 * (v * P) + t) * 100 = 2 * (v * 100 * P) + 100 * t := by ring
    have e0 : (2 * (m2 * D)) * t = 2 * (m2 * D * t) := by ring
    have e3 : (2 * (m * t)) * 100 = 2 * ((m * t) * 100) := by ring
    linarith
  have hAB2 : v * 100 * P ≤ m2 * D * t + 114 * t := by
    have s2 : (2 * (m * 100)) * t ≤ (2 * (m2 * D) + D) * t := Nat.mul_le_mul_right t h2b
    have s1 : (2 * (v * P)) * 100 ≤ (2 * (m * t) + t) * 100 := Nat.mul_le_mul_right 100 h1b
    have sD : D * t ≤ 128 * t := Nat.mul_le_mul_right t hD
    have e2 : (2 * (m2 * D) + D) * t = 2 * (m2 * D * t) + D * t := by ring
    have e1 : (2 * (v * P)) * 100 = 2 * (v * 100 * P) := by ring
    have e3 : (2 * (m * t) + t) * 100 = 2 * ((m * t) * 100) + 100 * t := by ring
    have e0 : (2 * (m * 100)) * t = 2 * ((m * t) * 100) := by ring
    linarith
  have hdm : v * 100 / t * t + v * 100 % t = v * 100 := Nat.div_add_mod' (v * 100) t
  have hmod : v * 100 % t < t := Nat.mod_lt _ ht0
  have hBdec : v * 100 * P = (v * 100 / t) * t * P + (v * 100 % t) * P := by
    calc v * 100 * P = (v * 100 / t * t + v * 100 % t) * P := by rw [hdm]
    _ = (v * 100 / t) * t * P + (v * 100 % t) * P := by ring
  have hEdiv : m2 * D / P = m2 * D * t / (P * t) := by
    rw [Nat.mul_div_mul_right _ _ ht0]
  have hup : m2 * D / P ≤ v * 100 / t := by
    rw [hEdiv]
    have hr1 : (v * 100 % t + 1) * P ≤ t * P :=
      Nat.mul_le_mul_right P (Nat.succ_le_of_lt hmod)
    have er : (v * 100 % t + 1) * P = (v * 100 % t) * P + P := by ring
    have hlt : m2 * D * t < (v * 100 / t + 1) * (P * t) := by
      have ee : (v * 100 / t + 1) * (P * t) = (v * 100 / t) * t * P + t * P := by ring
      linarith [hAB1, hBdec, hPt, hr1]
    exact Nat.lt_succ_iff.mp ((Nat.div_lt_iff_lt_mul hPtpos).mpr hlt)
  have hlow : v * 100 / t ≤ m2 * D / P + 1 := by
    rw [hEdiv]
    have hdm2 : m2 * D * t / (P * t) * (P * t) + m2 * D * t % (P * t) = m2 * D * t :=
      Nat.div_add_mod' _ _
    have hmod2 : m2 * D * t % (P * t) < P * t := Nat.mod_lt _ hPtpos
    have hPle : P ≤ P * t := Nat.le_mul_of_pos_right P ht0
    have h1 : (v * 100 / t) * (P * t) < (m2 * D * t / (P * t) + 2) * (P * t) := by
      have e2 : (m2 * D * t / (P * t) + 2) * (P * t) =
          m2 * D * t / (P * t) * (P * t) + 2 * (P * t) := by ring
      have e1 : (v * 100 / t) * (P * t) = (v * 100 / t) * t * P := by ring
      have c1 : (v * 100 / t) * t * P ≤ v * 100 * P := by
        rw [hBdec]
        exact Nat.le_add_right _ _
      linarith [hAB2, hdm2, hmod2, hPle, hPt, c1]
    have h2 : v * 100 / t < m2 * D * t / (P * t) + 2 :=
      lt_of_mul_lt_mul_right h1 (Nat.zero_le _)
    exact Nat.lt_succ_iff.mp h2
  refine ⟨hup, hlow, ?_⟩
  intro hdvd
  have hr : 0 < v * 100 % t := by
    rcases Nat.eq_zero_or_pos (v * 100 % t) with h0 | h1
    · exact absurd (Nat.dvd_of_mod_eq_zero h0) hdvd
    · exact h1
  have hge : v * 100 / t ≤ m2 * D / P := by
    rw [hEdiv]
    rw [Nat.le_div_iff_mul_le hPtpos]
    have c2 : P ≤ (v * 100 % t) * P := Nat.le_mul_of_pos_left P hr
    have e1 : (v * 100 / t) * (P * t) = (v * 100 / t) * t * P := by ring
    linarith [hAB2, hBdec, hPt, c2]
  exact le_antisymm hup hge

/-- Fact: for a positive score and a total below `2 ^ 52 / 114` (far above any
reachable total), the doubly rounded `pyIntDivMul100 v t` is the exactly
truncated percentage `v * 100 / t` or exactly one below it, the latter only
when `t` divides `v * 100`. -/
theorem pyIntDivMul100_bounds (v t : Nat) (hv : 0 < v) (ht0 : 0 < t)
    (ht : 114 * t < 2 ^ 52) :
    pyIntDivMul100 v t ≤ v * 100 / t ∧
    v * 100 / t ≤ pyIntDivMul100 v t + 1 ∧
    (¬ t ∣ v * 100 → pyIntDivMul100 v t = v * 100 / t) := by
  have hv' : ¬ v = 0 := Nat.pos_iff_ne_zero.mp hv
  simp only [pyIntDivMul100, if_neg hv']
  generalize normShift v t = s
  generalize hm : rndNE (v * 2 ^ (52 + s)) t = m
  generalize hd : (if m * 100 < 2 ^ 59 then 6 else 7) = d
  generalize hm2 : rndNE (m * 100) (2 ^ d) = m2
  obtain ⟨h1a, h1b⟩ := rndNE_bounds (v * 2 ^ (52 + s)) t ht0
  rw [hm] at h1a h1b
  obtain ⟨h2a, h2b⟩ := rndNE_bounds (m * 100) (2 ^ d) (pow_pos (by norm_num) d)
  rw [hm2] at h2a h2b
  have hD : (2:Nat) ^ d ≤ 128 := by
    rw [← hd]
    split <;> norm_num
  have hPP : 114 * t < 2 ^ (52 + s) :=
    lt_of_lt_of_le ht (Nat.pow_le_pow_right (by norm_num) (Nat.le_add_right 52 s))
  exact rnd_chain_core v t (2 ^ (52 + s)) m m2 (2 ^ d) ht0
    (pow_pos (by norm_num) _) hD hPP h1a h1b h2a h2b

/-- Python maps a zero score to `int(0.0) = 0`. -/
theorem pyIntDivMul100_zero (t : Nat) : pyIntDivMul100 0 t = 0 := by
  simp [pyIntDivMul100]

/-- C3 (amended): when the extracted raw consensus scores for a speaker sum to
a total `t` outside 95–105 with `0 < t` (and `t` below the `2 ^ 52 / 114`
rounding-margin bound, far above any reachable total),
`extract_consensus_scores` rescales every entry to python's double-precision
`int((score / total) * 100)`, modelled bit-exactly by `pyIntDivMul100`; each
rescaled entry equals the exactly truncated proportional share
`score * 100 / t` or falls exactly one below it, the rescaled set sums to at
most 100 and to more than `100 - 2 * (number of entries)`, and the relative
ordering of the values is preserved; in particular raw scores 50/50/30
(total 130) normalize to 38/38/23, summing to 99, with the 30-entry still
smallest. -/
theorem c3_consensus_normalization (chars : PyStr → Option PyStr)
    (order : List PyStr) (resp : PyStr) (t : Nat)
    (ht : DebateManager.sumValues (DebateManager.extractRawScores chars order resp) = t)
    (ht0 : 0 < t) (hrange : t < 95 ∨ 105 < t) (hmag : 114 * t < 2 ^ 52) :
    DebateManager.extract_consensus_scores chars order resp =
      (DebateManager.extractRawScores chars order resp).map
        (fun p => (p.1, pyIntDivMul100 p.2 t)) ∧
    (∀ p ∈ DebateManager.extractRawScores chars order resp,
      pyIntDivMul100 p.2 t ≤ p.2 * 100 / t ∧
      p.2 * 100 / t ≤ pyIntDivMul100 p.2 t + 1) ∧
    DebateManager.sumValues (DebateManager.extract_consensus_scores chars order resp)
      ≤ 100 ∧
    100 < DebateManager.sumValues
        (DebateManager.extract_consensus_scores chars order resp) +
      2 * (DebateManager.extractRawScores chars order resp).length ∧
    (∀ p q, p ∈ DebateManager.extractRawScores chars order resp →
      q ∈ DebateManager.extractRawScores chars order resp → p.2 ≤ q.2 →
      (p.1, pyIntDivMul100 p.2 t) ∈
        DebateManager.extract_consensus_scores chars order resp ∧
      (q.1, pyIntDivMul100 q.2 t) ∈
        DebateManager.extract_consensus_scores chars order resp ∧
      pyIntDivMul100 p.2 t ≤ pyIntDivMul100 q.2 t) ∧
    DebateManager.extract_consensus_scores (fun _ => none)
      ["claude".data, "chatgpt".data, "gemini".data]
      "Claude's position: 50%\nChatgpt's position: 50%\nGemini's position: 30%".data =
      [("claude".data, 38), ("chatgpt".data, 38), ("gemini".data, 23)] ∧
    DebateManager.sumValues
      [(("claude".data : PyStr), 38), ("chatgpt".data, 38), ("gemini".data, 23)] = 99 := by
  have heq : DebateManager.extract_consensus_scores chars order resp =
      (DebateManager.extractRawScores chars order resp).map
        (fun p => (p.1, pyIntDivMul100 p.2 t)) := by
    simp only [DebateManager.extract_consensus_scores]
    rw [ht]
    rcases hrange with h | h <;> simp [h, ht0]
  have hbr : ∀ p ∈ DebateManager.extractRawScores chars order resp,
      pyIntDivMul100 p.2 t ≤ p.2 * 100 / t ∧
      p.2 * 100 / t ≤ pyIntDivMul100 p.2 t + 1 := by
    intro p hp
    rcases Nat.eq_zero_or_pos p.2 with h0 | hpos
    · rw [h0, pyIntDivMul100_zero]
      simp
    · obtain ⟨h1, h2, _⟩ := pyIntDivMul100_bounds p.2 t hpos ht0 hmag
      exact ⟨h1, h2⟩
  have hkey : DebateManager.sumValues
      ((DebateManager.extractRawScores chars order resp).map
        (fun p => (p.1, pyIntDivMul100 p.2 t))) =
      ((DebateManager.extractRawScores chars order resp).map
        (fun p => pyIntDivMul100 p.2 t)).sum := by
    simp only [DebateManager.sumValues, List.map_map]
    rfl
  have hflkey : (DebateManager.extractRawScores chars order resp).map
        (fun p => p.2 * 100 / t) =
      (((DebateManager.extractRawScores chars order resp).map Prod.snd).map
        (fun v => v * 100)).map (fun v => v / t) := by
    simp only [List.map_map]
    rfl
  have hv : ((DebateManager.extractRawScores chars order resp).map Prod.snd).sum = t := ht
  have hfl_le : ((DebateManager.extractRawScores chars order resp).map
      (fun p => p.2 * 100 / t)).sum ≤ 100 := by
    rw [hflkey]
    have h1 := sum_div_le_div_sum
      (((DebateManager.extractRawScores chars order resp).map Prod.snd).map
        (fun v => v * 100)) t
    rw [sum_map_mul_100, hv, Nat.mul_div_cancel_left 100 ht0] at h1
    exact h1
  have hvals_ne : ((DebateManager.extractRawScores chars order resp).map Prod.snd) ≠ [] := by
    intro hh
    have h0 : t = 0 := by
      rw [← ht]
      simp [DebateManager.sumValues, hh]
    omega
  have hfl_gt : 100 < ((DebateManager.extractRawScores chars order resp).map
      (fun p => p.2 * 100 / t)).sum +
      (DebateManager.extractRawScores chars order resp).length := by
    rw [hflkey]
    have hne : (((DebateManager.extractRawScores chars order resp).map Prod.snd).map
        (fun v => v * 100)) ≠ [] := by
      simpa using hvals_ne
    have h2 := sum_lt_mul_divsum_add_length
      (((DebateManager.extractRawScores chars order resp).map Prod.snd).map
        (fun v => v * 100)) t ht0 hne
    rw [sum_map_mul_100, hv] at h2
    have hlen : ((((DebateManager.extractRawScores chars order resp).map Prod.snd).map
        (fun v => v * 100))).length =
        (DebateManager.extractRawScores chars order resp).length := by simp
    rw [hlen] at h2
    have := Nat.lt_of_mul_lt_mul_left (a := t) (by
      calc t * 100 = t * 100 := rfl
      _ < t * ((((((DebateManager.extractRawScores chars order resp).map Prod.snd).map
            (fun v => v * 100)).map (fun v => v / t))).sum +
          (DebateManager.extractRawScores chars order resp).length) := by
        rw [Nat.mul_comm t 100] at h2 ⊢
        exact h2)
    exact this
  have hsum_eq : DebateManager.sumValues
      (DebateManager.extract_consensus_scores chars order resp) =
      ((DebateManager.extractRawScores chars order resp).map
        (fun p => pyIntDivMul100 p.2 t)).sum := by
    rw [heq, hkey]
  have hsum_le : DebateManager.sumValues
      (DebateManager.extract_consensus_scores chars order resp) ≤ 100 := by
    rw [hsum_eq]
    calc ((DebateManager.extractRawScores chars order resp).map
        (fun p => pyIntDivMul100 p.2 t)).sum
        ≤ ((DebateManager.extractRawScores chars order resp).map
          (fun p => p.2 * 100 / t)).sum :=
          sum_le_sum_of_le _ _ _ (fun p hp => (hbr p hp).1)
    _ ≤ 100 := hfl_le
  have hsum_gt : 100 < DebateManager.sumValues
      (DebateManager.extract_consensus_scores chars order resp) +
      2 * (DebateManager.extractRawScores chars order resp).length := by
    rw [hsum_eq]
    have hstep : ((DebateManager.extractRawScores chars order resp).map
        (fun p => p.2 * 100 / t)).sum ≤
        ((DebateManager.extractRawScores chars order resp).map
          (fun p => pyIntDivMul100 p.2 t)).sum +
        (DebateManager.extractRawScores chars order resp).length := by
      have h1 : ((DebateManager.extractRawScores chars order resp).map
          (fun p => p.2 * 100 / t)).sum ≤
          ((DebateManager.extractRawScores chars order resp).map
            (fun p => pyIntDivMul100 p.2 t + 1)).sum :=
        sum_le_sum_of_le _ _ _ (fun p hp => (hbr p hp).2)
      rw [sum_map_add_one] at h1
      exact h1
    omega
  refine ⟨heq, hbr, hsum_le, hsum_gt, ?_, by decide, by decide⟩
  intro p q hp hq hpq
  refine ⟨by rw [heq]; exact List.mem_map_of_mem _ hp,
    by rw [heq]; exact List.mem_map_of_mem _ hq, ?_⟩
  rcases Nat.eq_zero_or_pos p.2 with hp0 | hp0
  · rw [hp0, pyIntDivMul100_zero]
    exact Nat.zero_le _
  rcases Nat.lt_or_ge p.2 q.2 with hlt | hge
  · have hq0 : 0 < q.2 := lt_trans hp0 hlt
    obtain ⟨hp1, hp2, hp3⟩ := pyIntDivMul100_bounds p.2 t hp0 ht0 hmag
    obtain ⟨hq1, hq2, hq3⟩ := pyIntDivMul100_bounds q.2 t hq0 ht0 hmag
    by_cases hdvd : t ∣ q.2 * 100
    · obtain ⟨k, hk⟩ := hdvd
      have hFq : q.2 * 100 / t = k := by
        rw [hk, Nat.mul_div_cancel_left k ht0]
      have hFlt : p.2 * 100 / t < k := by
        rw [Nat.div_lt_iff_lt_mul ht0]
        calc p.2 * 100 < q.2 * 100 := by omega
        _ = t * k := hk
        _ = k * t := Nat.mul_comm _ _
      omega
    · have hq_exact : pyIntDivMul100 q.2 t = q.2 * 100 / t := hq3 hdvd
      have hFle : p.2 * 100 / t ≤ q.2 * 100 / t :=
        Nat.div_le_div_right (by omega)
      omega
  · have hqp : p.2 = q.2 := le_antisymm hpq hge
    rw [hqp]

/-- Witness for C3 at the 50/50/30 instance of the spec. -/
theorem c3_consensus_normalization_witness :
    DebateManager.extract_consensus_scores (fun _ => none)
      ["claude".data, "chatgpt".data, "gemini".data]
      "Claude's position: 50%\nChatgpt's position: 50%\nGemini's position: 30%".data =
      [("claude".data, 38), ("chatgpt".data, 38), ("gemini".data, 23)] :=
  (c3_consensus_normalization (fun _ => none)
    ["claude".data, "chatgpt".data, "gemini".data]
    "Claude's position: 50%\nChatgpt's position: 50%\nGemini's position: 30%".data
    130 (by decide) (by decide) (Or.inr (by decide)) (by decide)).2.2.2.2.2.1

/-- C3 counterexample to the claim as stated: the reachable Round-4 response
allocating 58/58/84 (raw total 200, outside 95–105) rescales to 28/28/42 —
python's double-precision `int((58 / 200) * 100)` is 28, one BELOW the exact
truncated proportional share `58 * 100 / 200 = 29` that exact per-entry
integer truncation prescribes, and the rescaled set sums to 98, outside plus
or minus 1 of 100. -/
theorem c3_consensus_normalization_counterexample :
    DebateManager.extract_consensus_scores (fun _ => none)
      ["claude".data, "chatgpt".data, "gemini".data]
      "Claude's position: 58%\nChatgpt's position: 58%\nGemini's position: 84%".data =
      [("claude".data, 28), ("chatgpt".data, 28), ("gemini".data, 42)] ∧
    DebateManager.sumValues
      (DebateManager.extractRawScores (fun _ => none)
        ["claude".data, "chatgpt".data, "gemini".data]
        "Claude's position: 58%\nChatgpt's position: 58%\nGemini's position: 84%".data) =
      200 ∧
    pyIntDivMul100 58 200 = 28 ∧
    58 * 100 / 200 = 29 ∧
    DebateManager.sumValues [(("claude".data : PyStr), 28), ("chatgpt".data, 28),
      ("gemini".data, 42)] = 98 :=
  ⟨by decide, by decide, by decide, by decide, by decide⟩

/-! Lemmas for the sparse average (C4). -/

theorem dictGetD_set_self {α : Type} (d : List (PyStr × α)) (k : PyStr) (v d₀ : α) :
    dictGetD (dictSet d k v) k d₀ = v := by
  simp [dictGetD, dictGet?_set_self]

theorem dictGetD_set_ne {α : Type} (d : List (PyStr × α)) (k k' : PyStr) (v d₀ : α)
    (h : k' ≠ k) : dictGetD (dictSet d k v) k' d₀ = dictGetD d k' d₀ := by
  simp [dictGetD, dictGet?_set_ne _ _ _ _ h]

theorem mem_dictKeys_iff_isSome {α : Type} (d : List (PyStr × α)) (k : PyStr) :
    k ∈ dictKeys d ↔ (dictGet? d k).isSome := by
  induction d with
  | nil => simp [dictKeys, dictGet?]
  | cons p t ih =>
    by_cases hp : p.1 = k
    · simp [dictKeys_cons, dictGet?, hp]
    · have : ¬ k = p.1 := fun hh => hp hh.symm
      simp [dictKeys_cons, dictGet?, hp, this, ih]

theorem dictGet?_eq_some_getD_of_mem_keys {α : Type} {d : List (PyStr × α)} {k : PyStr}
    (d₀ : α) (h : k ∈ dictKeys d) : dictGet? d k = some (dictGetD d k d₀) := by
  rcases Option.isSome_iff_exists.mp ((mem_dictKeys_iff_isSome d k).mp h) with ⟨v, hv⟩
  rw [hv]
  simp [dictGetD, hv]

theorem mem_keys_dictSet_self {α : Type} (d : List (PyStr × α)) (k : PyStr) (v : α) :
    k ∈ dictKeys (dictSet d k v) :=
  mem_dictKeys_of_mem (self_mem_dictSet d k v)

theorem mem_keys_dictSet_of_mem {α : Type} {d : List (PyStr × α)} {k : PyStr}
    (k' : PyStr) (v : α) (h : k ∈ dictKeys d) : k ∈ dictKeys (dictSet d k' v) := by
  rw [dictKeys_dictSet]
  split
  · exact h
  · exact List.mem_append_left _ h

namespace DebateManager

theorem avgStep_fold_getD (z : PyStr) :
    ∀ (ts : List (PyStr × Nat)) (acc : List (PyStr × Nat) × List (PyStr × Nat)),
      dictGetD (ts.foldl avgStep acc).1 z 0 =
        dictGetD acc.1 z 0 + ((ts.filter (fun p => p.1 = z)).map Prod.snd).sum ∧
      dictGetD (ts.foldl avgStep acc).2 z 0 =
        dictGetD acc.2 z 0 + (ts.filter (fun p => p.1 = z)).length := by
  intro ts
  induction ts with
  | nil => intro acc; simp
  | cons s rest ih =>
    intro acc
    rcases ih (avgStep acc s) with ⟨ih1, ih2⟩
    by_cases hs : s.1 = z
    · constructor
      · rw [List.foldl_cons, ih1]
        simp [avgStep, hs, dictGetD_set_self, List.filter_cons]
        omega
      · rw [List.foldl_cons, ih2]
        simp [avgStep, hs, dictGetD_set_self, List.filter_cons]
        omega
    · have hz : z ≠ s.1 := fun hh => hs hh.symm
      constructor
      · rw [List.foldl_cons, ih1]
        simp [avgStep, dictGetD_set_ne _ _ _ _ _ hz, List.filter_cons, hs]
      · rw [List.foldl_cons, ih2]
        simp [avgStep, dictGetD_set_ne _ _ _ _ _ hz, List.filter_cons, hs]

theorem avgStep_fold_keys_mono (k : PyStr) :
    ∀ (ts : List (PyStr × Nat)) (acc : List (PyStr × Nat) × List (PyStr × Nat)),
      k ∈ dictKeys acc.1 → k ∈ dictKeys (ts.foldl avgStep acc).1 := by
  intro ts
  induction ts with
  | nil => intro acc h; simpa using h
  | cons s rest ih =>
    intro acc h
    rw [List.foldl_cons]
    exact ih _ (mem_keys_dictSet_of_mem _ _ h)

theorem avgStep_fold_keys_scored (z : PyStr) :
    ∀ (ts : List (PyStr × Nat)) (acc : List (PyStr × Nat) × List (PyStr × Nat)),
      (∃ s ∈ ts, s.1 = z) → z ∈ dictKeys (ts.foldl avgStep acc).1 := by
  intro ts
  induction ts with
  | nil => intro acc h; simp at h
  | cons s rest ih =>
    intro acc h
    rw [List.foldl_cons]
    rcases h with ⟨s', hs', hz⟩
    rcases List.mem_cons.mp hs' with rfl | hmem
    · apply avgStep_fold_keys_mono
      rw [← hz]
      exact mem_keys_dictSet_self _ _ _
    · exact ih _ ⟨s', hmem, hz⟩

theorem outer_fold_getD (z : PyStr) :
    ∀ (cs : List (PyStr × List (PyStr × Nat)))
      (acc : List (PyStr × Nat) × List (PyStr × Nat)),
      dictGetD (cs.foldl (fun a fs => fs.2.foldl avgStep a) acc).1 z 0 =
        dictGetD acc.1 z 0 + (scoresForTarget cs z).sum ∧
      dictGetD (cs.foldl (fun a fs => fs.2.foldl avgStep a) acc).2 z 0 =
        dictGetD acc.2 z 0 + (scoresForTarget cs z).length := by
  intro cs
  induction cs with
  | nil => intro acc; simp [scoresForTarget]
  | cons fs rest ih =>
    intro acc
    rcases ih (fs.2.foldl avgStep acc) with ⟨ih1, ih2⟩
    rcases avgStep_fold_getD z fs.2 acc with ⟨h1, h2⟩
    constructor
    · rw [List.foldl_cons, ih1, h1]
      simp [scoresForTarget]
      omega
    · rw [List.foldl_cons, ih2, h2]
      simp [scoresForTarget]
      omega

theorem outer_fold_keys_mono (k : PyStr) :
    ∀ (cs : List (PyStr × List (PyStr × Nat)))
      (acc : List (PyStr × Nat) × List (PyStr × Nat)),
      k ∈ dictKeys acc.1 →
      k ∈ dictKeys (cs.foldl (fun a fs => fs.2.foldl avgStep a) acc).1 := by
  intro cs
  induction cs with
  | nil => intro acc h; simpa using h
  | cons fs rest ih =>
    intro acc h
    rw [List.foldl_cons]
    exact ih _ (avgStep_fold_keys_mono k fs.2 acc h)

theorem outer_fold_keys_scored (z : PyStr) :
    ∀ (cs : List (PyStr × List (PyStr × Nat)))
      (acc : List (PyStr × Nat) × List (PyStr × Nat)),
      (∃ fs ∈ cs, ∃ s ∈ fs.2, s.1 = z) →
      z ∈ dictKeys (cs.foldl (fun a fs => fs.2.foldl avgStep a) acc).1 := by
  intro cs
  induction cs with
  | nil => intro acc h; simp at h
  | cons fs rest ih =>
    intro acc h
    rw [List.foldl_cons]
    rcases h with ⟨fs', hfs', s', hs', hz⟩
    rcases List.mem_cons.mp hfs' with rfl | hmem
    · exact outer_fold_keys_mono z rest _
        (avgStep_fold_keys_scored z fs'.2 acc ⟨s', hs', hz⟩)
    · exact ih _ ⟨fs', hmem, s', hs', hz⟩

end DebateManager

theorem zero_init_getD (z : PyStr) :
    ∀ (order : List PyStr) (m0 : List (PyStr × Nat)),
      dictGetD m0 z 0 = 0 →
      dictGetD (order.foldl (fun m s => dictSet m s 0) m0) z 0 = 0 := by
  intro order
  induction order with
  | nil => intro m0 h; simpa using h
  | cons s rest ih =>
    intro m0 h
    rw [List.foldl_cons]
    apply ih
    by_cases hs : z = s
    · rw [hs]
      exact dictGetD_set_self m0 s 0 0
    · rw [dictGetD_set_ne m0 s z 0 0 hs]
      exact h

theorem dictGet?_map_keypreserving {α : Type} (f : PyStr × α → PyStr × α)
    (hf : ∀ p, (f p).1 = p.1) :
    ∀ (l : List (PyStr × α)) (k : PyStr),
      dictGet? (l.map f) k = (dictGet? l k).map (fun v => (f (k, v)).2) := by
  intro l
  induction l with
  | nil => intro k; simp [dictGet?]
  | cons p t ih =>
    intro k
    by_cases hp : p.1 = k
    · obtain ⟨p1, p2⟩ := p
      simp only at hp
      subst hp
      simp [dictGet?, hf]
    · have hfp : ¬ (f p).1 = k := by rw [hf p]; exact hp
      simp only [List.map_cons, dictGet?, if_neg hfp, if_neg hp]
      exact ih k

/-- C4: `calculate_average_scores` divides, for every target `z` that received
at least one consensus score, the sum of the scores assigned to `z` by the
number of speakers that scored `z` — not by the total participant count. -/
theorem c4_sparse_average_scoring (order : List PyStr)
    (consensus : List (PyStr × List (PyStr × Nat))) (z : PyStr)
    (hc : 0 < (DebateManager.scoresForTarget consensus z).length) :
    dictGet? (DebateManager.calculate_average_scores order consensus) z =
      some ((DebateManager.scoresForTarget consensus z).sum /
        (DebateManager.scoresForTarget consensus z).length) := by
  have hex : ∃ fs ∈ consensus, ∃ s ∈ fs.2, s.1 = z := by
    rcases List.exists_mem_of_length_pos hc with ⟨a, ha⟩
    rcases List.mem_flatMap.mp ha with ⟨fs, hfs, hafs⟩
    rcases List.mem_map.mp hafs with ⟨s, hsf, _⟩
    rcases List.mem_filter.mp hsf with ⟨hsmem, hsz⟩
    exact ⟨fs, hfs, s, hsmem, by simpa using hsz⟩
  rcases DebateManager.outer_fold_getD z consensus
    (order.foldl (fun m s => dictSet m s 0) [], []) with ⟨h1, h2⟩
  rw [zero_init_getD z order [] rfl, Nat.zero_add] at h1
  have h20 : dictGetD ([] : List (PyStr × Nat)) z 0 = 0 := rfl
  rw [h20, Nat.zero_add] at h2
  have hmem := DebateManager.outer_fold_keys_scored z consensus
    (order.foldl (fun m s => dictSet m s 0) [], []) hex
  have hget := dictGet?_eq_some_getD_of_mem_keys (d := (consensus.foldl
    (fun a fs => fs.2.foldl DebateManager.avgStep a)
    (order.foldl (fun m s => dictSet m s 0) [], [])).1) 0 hmem
  simp only [DebateManager.calculate_average_scores]
  rw [dictGet?_map_keypreserving _ (by
    intro p
    by_cases h : 0 < dictGetD (consensus.foldl
      (fun a fs => fs.2.foldl DebateManager.avgStep a)
      (order.foldl (fun m s => dictSet m s 0) [], [])).2 p.1 0
    · simp [h]
    · simp [h])]
  rw [hget]
  simp only [Option.map_some]
  simp [h1, h2, hc]

/-- Witness for C4: only 2 of 3 debaters scored `gemini` (40 and 30); the
average divides by 2 — `dictGet?` returns `some (70 / 2) = some 35`, not
`70 / 3`. -/
theorem c4_sparse_average_scoring_witness :
    dictGet? (DebateManager.calculate_average_scores
      ["claude".data, "chatgpt".data, "gemini".data]
      [("claude".data, [("gemini".data, 40)]),
       ("chatgpt".data, [("gemini".data, 30)])]) "gemini".data =
      some ((DebateManager.scoresForTarget
        [("claude".data, [("gemini".data, 40)]),
         ("chatgpt".data, [("gemini".data, 30)])] "gemini".data).sum /
        (DebateManager.scoresForTarget
        [("claude".data, [("gemini".data, 40)]),
         ("chatgpt".data, [("gemini".data, 30)])] "gemini".data).length) :=
  c4_sparse_average_scoring
    ["claude".data, "chatgpt".data, "gemini".data]
    [("claude".data, [("gemini".data, 40)]),
     ("chatgpt".data, [("gemini".data, 30)])] "gemini".data (by decide)

/-! Section: Persona registry invariant (C6) -/

namespace CharacterManager

theorem Inv.nodup_chars {st : State} (h : Inv st) : (dictKeys st.characters).Nodup :=
  h.1.imp (fun hab he => hab (congrArg pyLower he))

theorem remove_character_Inv (st : State) (name : PyStr) (h : Inv st) :
    Inv (remove_character st name) := by
  obtain ⟨hpair, hnd2, hfwd, hbwd⟩ := h
  have hndc : (dictKeys st.characters).Nodup :=
    hpair.imp (fun hab he => hab (congrArg pyLower he))
  cases hget : dictGet? st.characters name with
  | none =>
    have hrm : remove_character st name = st := by
      simp [remove_character, hget]
    rw [hrm]
    exact ⟨hpair, hnd2, hfwd, hbwd⟩
  | some c =>
    have hmemc : (name, c) ∈ st.characters := mem_of_dictGet?_eq_some hget
    have hback : dictGet? st.llm_to_character c.llm_name = some name :=
      (hfwd _ hmemc).2
    have hrm : remove_character st name =
        ⟨dictDel st.characters name, dictDel st.llm_to_character c.llm_name⟩ := by
      simp [remove_character, hget, hback]
    rw [hrm]
    refine ⟨?_, ?_, ?_, ?_⟩
    · exact List.Pairwise.sublist (keys_dictDel_sublist st.characters name) hpair
    · exact (keys_dictDel_sublist st.llm_to_character c.llm_name).nodup hnd2
    · intro p hp
      have hpmem : p ∈ st.characters := mem_dictDel _ _ _ hp
      have hpne : p.1 ≠ name := fst_ne_of_mem_dictDel hndc hp
      refine ⟨(hfwd _ hpmem).1, ?_⟩
      have hplne : p.2.llm_name ≠ c.llm_name := by
        intro he
        have h2 := (hfwd _ hpmem).2
        rw [he, hback] at h2
        exact hpne (Option.some.inj h2).symm
      rw [dictGet?_del_ne _ _ _ hplne]
      exact (hfwd _ hpmem).2
    · intro q hq
      have hqmem : q ∈ st.llm_to_character := mem_dictDel _ _ _ hq
      have hqne : q.1 ≠ c.llm_name := fst_ne_of_mem_dictDel hnd2 hq
      obtain ⟨c₀, hc₀, hl₀⟩ := hbwd _ hqmem
      have hq2ne : q.2 ≠ name := by
        intro he
        rw [he, hget] at hc₀
        have hcc : c = c₀ := Option.some.inj hc₀
        have h2 : c.llm_name = q.1 := by rw [hcc]; exact hl₀
        exact hqne h2.symm
      refine ⟨c₀, ?_, hl₀⟩
      rw [dictGet?_del_ne _ _ _ hq2ne]
      exact hc₀

end CharacterManager

namespace CharacterManager

theorem remove_character_chars (st : State) (name : PyStr) :
    (remove_character st name).characters =
      (match dictGet? st.characters name with
      | some _ => dictDel st.characters name
      | none => st.characters) := by
  cases hget : dictGet? st.characters name with
  | none => simp [remove_character, hget]
  | some c =>
    simp only [remove_character, hget]
    split <;> rfl

theorem remove_character_chars_keys_sublist (st : State) (name : PyStr) :
    (dictKeys (remove_character st name).characters).Sublist
      (dictKeys st.characters) := by
  rw [remove_character_chars]
  cases hget : dictGet? st.characters name with
  | none => simp
  | some c => simp [keys_dictDel_sublist]

/-- After clearing an existing `llm → old` binding, the LLM is unbound. -/
theorem remove_old_clears (st1 : State) (L old : PyStr) (h1 : Inv st1)
    (hold : dictGet? st1.llm_to_character L = some old) :
    dictGet? (remove_character st1 old).llm_to_character L = none := by
  obtain ⟨c₀, hc₀, hl₀⟩ := h1.2.2.2 _ (mem_of_dictGet?_eq_some hold)
  have hback : dictGet? st1.llm_to_character c₀.llm_name = some old := by
    rw [hl₀]; exact hold
  have hrm : remove_character st1 old =
      ⟨dictDel st1.characters old, dictDel st1.llm_to_character c₀.llm_name⟩ := by
    simp [remove_character, hc₀, hback]
  rw [hrm]
  have : dictDel st1.llm_to_character c₀.llm_name = dictDel st1.llm_to_character L := by
    rw [hl₀]
  rw [this]
  exact dictGet?_del_self h1.2.1

/-- The core of `assign_character`: adding a fresh pair to a consistent
registry whose character names avoid the new name (case-insensitively) and
whose LLM is unbound preserves the invariant. -/
theorem final_assign_Inv (st2 : State) (L name bg : PyStr) (h2 : Inv st2)
    (hP1 : ∀ k ∈ dictKeys st2.characters, pyLower k ≠ pyLower name)
    (hQ : dictGet? st2.llm_to_character L = none) :
    Inv ⟨dictSet st2.characters name ⟨name, L, bg⟩,
         dictSet st2.llm_to_character L name⟩ := by
  obtain ⟨hpair, hnd2, hfwd, hbwd⟩ := h2
  have hndc : (dictKeys st2.characters).Nodup :=
    hpair.imp (fun hab he => hab (congrArg pyLower he))
  have hname_notin : name ∉ dictKeys st2.characters := by
    intro hmem
    exact hP1 name hmem rfl
  refine ⟨?_, ?_, ?_, ?_⟩
  · rw [dictKeys_dictSet, if_neg hname_notin]
    rw [List.pairwise_append]
    refine ⟨hpair, List.pairwise_singleton _ _, ?_⟩
    intro a ha b hb
    rw [List.mem_singleton] at hb
    subst hb
    exact hP1 a ha
  · exact nodup_dictKeys_dictSet hnd2
  · intro p hp
    rcases mem_dictSet_elim hndc hp with rfl | ⟨hpmem, hpne⟩
    · exact ⟨rfl, dictGet?_set_self _ _ _⟩
    · refine ⟨(hfwd _ hpmem).1, ?_⟩
      have hplne : p.2.llm_name ≠ L := by
        intro he
        have h3 := (hfwd _ hpmem).2
        rw [he, hQ] at h3
        cases h3
      rw [dictGet?_set_ne _ _ _ _ hplne]
      exact (hfwd _ hpmem).2
  · intro q hq
    rcases mem_dictSet_elim hnd2 hq with rfl | ⟨hqmem, hqne⟩
    · exact ⟨⟨name, L, bg⟩, dictGet?_set_self _ _ _, rfl⟩
    · obtain ⟨c₀, hc₀, hl₀⟩ := hbwd _ hqmem
      have hq2ne : q.2 ≠ name := by
        intro he
        apply hname_notin
        rw [← he]
        exact mem_dictKeys_of_mem (mem_of_dictGet?_eq_some hc₀)
      refine ⟨c₀, ?_, hl₀⟩
      rw [dictGet?_set_ne _ _ _ _ hq2ne]
      exact hc₀

end CharacterManager

namespace CharacterManager

theorem stage1_removed_no_match (st : State) (name : PyStr) (p : PyStr × Character)
    (h : Inv st)
    (hfind : st.characters.find? (fun q => pyLower q.1 = pyLower name) = some p) :
    ∀ k ∈ dictKeys (remove_character st p.1).characters,
      pyLower k ≠ pyLower name := by
  have hmem := List.mem_of_find?_eq_some hfind
  have hpred : pyLower p.1 = pyLower name := by
    have := List.find?_some hfind
    simpa using this
  have hndc : (dictKeys st.characters).Nodup := h.nodup_chars
  intro k hk
  rw [remove_character_chars] at hk
  have hget : dictGet? st.characters p.1 = some p.2 :=
    dictGet?_eq_some_of_mem hndc hmem
  simp only [hget] at hk
  rcases List.mem_map.mp hk with ⟨q, hq, rfl⟩
  have hqne : q.1 ≠ p.1 := fst_ne_of_mem_dictDel hndc hq
  have hqmem : q ∈ st.characters := mem_dictDel _ _ _ hq
  have hrel := List.Pairwise.forall (R := fun a b => pyLower a ≠ pyLower b)
    (fun _ _ hab => Ne.symm hab) h.1
    (mem_dictKeys_of_mem hqmem) (mem_dictKeys_of_mem hmem) hqne
  rw [← hpred]
  exact hrel

theorem stage1_none_no_match (st : State) (name : PyStr)
    (hfind : st.characters.find? (fun q => pyLower q.1 = pyLower name) = none) :
    ∀ k ∈ dictKeys st.characters, pyLower k ≠ pyLower name := by
  intro k hk
  rcases List.mem_map.mp hk with ⟨q, hq, rfl⟩
  have := List.find?_eq_none.mp hfind q hq
  simpa using this

/-- Fact: `assign_character` preserves the registry invariant (a raised
`InvalidLLMError` leaves the state untouched). -/
theorem assign_step_Inv (st : State) (llm name bg : PyStr) (h : Inv st) :
    Inv (match assign_character st llm name bg with
        | .ok r => r.1
        | .error _ => st) := by
  by_cases hv : pyLower llm ∈ LLMFactory.VALID_LLMS
  · cases hfind : st.characters.find? (fun q => pyLower q.1 = pyLower name) with
    | some p =>
      have h1 : Inv (remove_character st p.1) := remove_character_Inv st p.1 h
      have hP1 := stage1_removed_no_match st name p h hfind
      cases hget2 : dictGet? (remove_character st p.1).llm_to_character (pyLower llm) with
      | some old =>
        have h2 : Inv (remove_character (remove_character st p.1) old) :=
          remove_character_Inv _ old h1
        have hP2 : ∀ k ∈
            dictKeys (remove_character (remove_character st p.1) old).characters,
            pyLower k ≠ pyLower name := fun k hk =>
          hP1 k ((remove_character_chars_keys_sublist _ old).subset hk)
        have hQ := remove_old_clears _ _ old h1 hget2
        have hres := final_assign_Inv _ (pyLower llm) name bg h2 hP2 hQ
        simpa [assign_character, hv, hfind, hget2] using hres
      | none =>
        have hres := final_assign_Inv _ (pyLower llm) name bg h1 hP1 hget2
        simpa [assign_character, hv, hfind, hget2] using hres
    | none =>
      have hP1 := stage1_none_no_match st name hfind
      cases hget2 : dictGet? st.llm_to_character (pyLower llm) with
      | some old =>
        have h2 := remove_character_Inv st old h
        have hP2 : ∀ k ∈ dictKeys (remove_character st old).characters,
            pyLower k ≠ pyLower name := fun k hk =>
          hP1 k ((remove_character_chars_keys_sublist st old).subset hk)
        have hQ := remove_old_clears st _ old h hget2
        have hres := final_assign_Inv _ (pyLower llm) name bg h2 hP2 hQ
        simpa [assign_character, hv, hfind, hget2] using hres
      | none =>
        have hres := final_assign_Inv st (pyLower llm) name bg h hP1 hget2
        simpa [assign_character, hv, hfind, hget2] using hres
  · simpa [assign_character, hv] using h

theorem assign_character_ok_Inv (st : State) (llm name bg : PyStr) (st' : State)
    (c : Character) (h : Inv st)
    (hok : assign_character st llm name bg = .ok (st', c)) : Inv st' := by
  have hstep := assign_step_Inv st llm name bg h
  rw [hok] at hstep
  exact hstep

theorem applyAssigns_cons (st : State) (op : PyStr × PyStr × PyStr)
    (rest : List (PyStr × PyStr × PyStr)) :
    applyAssigns st (op :: rest) =
      applyAssigns (match assign_character st op.1 op.2.1 op.2.2 with
        | .ok (s', _) => s'
        | .error _ => st) rest := by
  simp [applyAssigns]

theorem initState_Inv : Inv initState := by
  refine ⟨?_, ?_, ?_, ?_⟩ <;> simp [initState, dictKeys]

theorem applyAssigns_Inv (ops : List (PyStr × PyStr × PyStr)) :
    Inv (applyAssigns initState ops) := by
  suffices h : ∀ st, Inv st → Inv (applyAssigns st ops) from h initState initState_Inv
  induction ops with
  | nil => intro st h; exact h
  | cons op rest ih =>
    intro st h
    rw [applyAssigns_cons]
    cases hassign : assign_character st op.1 op.2.1 op.2.2 with
    | ok r =>
      exact ih _ (assign_character_ok_Inv st op.1 op.2.1 op.2.2 r.1 r.2 h
        (by rw [hassign]))
    | error e => exact ih _ h

/-- From the invariant: a persona name is held by at most one participant. -/
theorem Inv.unique_holder {st : State} (h : Inv st) {l1 l2 n : PyStr}
    (h1 : dictGet? st.llm_to_character l1 = some n)
    (h2 : dictGet? st.llm_to_character l2 = some n) : l1 = l2 := by
  obtain ⟨c1, hc1, hl1⟩ := h.2.2.2 _ (mem_of_dictGet?_eq_some h1)
  obtain ⟨c2, hc2, hl2⟩ := h.2.2.2 _ (mem_of_dictGet?_eq_some h2)
  rw [hc1] at hc2
  have hl1' : c1.llm_name = l1 := hl1
  have hl2' : c2.llm_name = l2 := hl2
  rw [← hl1', ← hl2', Option.some.inj hc2]

end CharacterManager

/-- C6: persona exclusivity.  For every sequence of `assign_character`
commands from the empty registry: the registry invariant holds — at most one
persona per participant (`llm_to_character` is a map with duplicate-free
keys) and at most one participant per persona name (shown by the uniqueness
consequence in the second conjunct).  Concretely, assigning `"X"` to claude
and then `"X"` to chatgpt leaves claude with no persona and chatgpt holding
`"X"`, and assigning `"Y"` to claude while it holds `"X"` removes `"X"` so
that no participant holds it. -/
theorem c6_persona_exclusivity :
    (∀ ops, CharacterManager.Inv
      (CharacterManager.applyAssigns CharacterManager.initState ops)) ∧
    (∀ ops l1 l2 n,
      dictGet? (CharacterManager.applyAssigns
        CharacterManager.initState ops).llm_to_character l1 = some n →
      dictGet? (CharacterManager.applyAssigns
        CharacterManager.initState ops).llm_to_character l2 = some n →
      l1 = l2) ∧
    dictGet? (CharacterManager.applyAssigns CharacterManager.initState
      [("claude".data, "X".data, []),
       ("chatgpt".data, "X".data, [])]).llm_to_character "claude".data = none ∧
    dictGet? (CharacterManager.applyAssigns CharacterManager.initState
      [("claude".data, "X".data, []),
       ("chatgpt".data, "X".data, [])]).llm_to_character "chatgpt".data =
      some "X".data ∧
    dictGet? (CharacterManager.applyAssigns CharacterManager.initState
      [("claude".data, "X".data, []),
       ("claude".data, "Y".data, [])]).characters "X".data = none ∧
    (∀ l, dictGet? (CharacterManager.applyAssigns CharacterManager.initState
      [("claude".data, "X".data, []),
       ("claude".data, "Y".data, [])]).llm_to_character l ≠ some "X".data) := by
  refine ⟨CharacterManager.applyAssigns_Inv, ?_, by decide, by decide, by decide, ?_⟩
  · intro ops l1 l2 n h1 h2
    exact (CharacterManager.applyAssigns_Inv ops).unique_holder h1 h2
  · intro l h
    have heq : (CharacterManager.applyAssigns CharacterManager.initState
        [("claude".data, "X".data, []),
         ("claude".data, "Y".data, [])]).llm_to_character =
        [("claude".data, "Y".data)] := by decide
    rw [heq] at h
    simp only [dictGet?] at h
    split at h
    · exact absurd (Option.some.inj h) (by decide)
    · exact Option.noConfusion h

/-- Witness for C6: the uniqueness consequence applied at the first concrete
scenario. -/
theorem c6_persona_exclusivity_witness :
    ("chatgpt".data : PyStr) = "chatgpt".data :=
  c6_persona_exclusivity.2.1
    [("claude".data, "X".data, []), ("chatgpt".data, "X".data, [])]
    "chatgpt".data "chatgpt".data "X".data (by decide) (by decide)

/-- C7: a role or character assignment with an unknown participant identifier
or unknown role name returns a single system notice that embeds the invalid
value, aborts, and returns the state unchanged (no registry or character map
mutated); `CharacterManager.assign_character` raises `InvalidLLMError` before
any mutation, with the invalid (lower-cased) identifier in the message. -/
theorem c7_invalid_identifier_handling :
    (∀ (st : ConversationManager.State) (llm role : PyStr),
      llm ∉ ConversationManager.VALID_LLMS →
      ConversationManager.assign_role st llm role =
        (st, [⟨"system".data, "Unknown LLM: ".data ++ llm ++
          ". Available options: claude, chatgpt, gemini".data⟩])) ∧
    (∀ (st : ConversationManager.State) (llm role : PyStr),
      llm ∈ ConversationManager.VALID_LLMS →
      role ∉ ConversationManager.VALID_ROLES →
      ConversationManager.assign_role st llm role =
        (st, [⟨"system".data, "Invalid role: ".data ++ role ++
          ". Available options: assistant, debater, creative, researcher".data⟩])) ∧
    (∀ (st : ConversationManager.State) (llm name : PyStr),
      llm ∉ ConversationManager.VALID_LLMS →
      ConversationManager.assign_character st llm name =
        (st, [⟨"system".data, "Unknown LLM: ".data ++ llm ++
          ". Available options: claude, chatgpt, gemini".data⟩])) ∧
    (∀ (st : CharacterManager.State) (llm name bg : PyStr),
      pyLower llm ∉ LLMFactory.VALID_LLMS →
      CharacterManager.assign_character st llm name bg =
        .error ("Unknown LLM: ".data ++ pyLower llm ++
          ". Available options: claude, chatgpt, gemini".data)) := by
  refine ⟨?_, ?_, ?_, ?_⟩
  · intro st llm role h
    simp [ConversationManager.assign_role, h]
  · intro st llm role h1 h2
    simp [ConversationManager.assign_role, h1, h2]
  · intro st llm name h
    simp [ConversationManager.assign_character, h]
  · intro st llm name bg h
    simp [CharacterManager.assign_character, h]

/-- Witness for C7 at the unknown identifier `"gpt5"` and unknown role
`"boss"`. -/
theorem c7_invalid_identifier_handling_witness :
    ConversationManager.assign_role ⟨[], [], []⟩ "gpt5".data "debater".data =
      (⟨[], [], []⟩, [⟨"system".data, "Unknown LLM: ".data ++ "gpt5".data ++
        ". Available options: claude, chatgpt, gemini".data⟩]) ∧
    ConversationManager.assign_role ⟨[], [], []⟩ "claude".data "boss".data =
      (⟨[], [], []⟩, [⟨"system".data, "Invalid role: ".data ++ "boss".data ++
        ". Available options: assistant, debater, creative, researcher".data⟩]) ∧
    ConversationManager.assign_character ⟨[], [], []⟩ "gpt5".data "John".data =
      (⟨[], [], []⟩, [⟨"system".data, "Unknown LLM: ".data ++ "gpt5".data ++
        ". Available options: claude, chatgpt, gemini".data⟩]) ∧
    CharacterManager.assign_character ⟨[], []⟩ "gpt5".data "John".data [] =
      .error ("Unknown LLM: ".data ++ pyLower "gpt5".data ++
        ". Available options: claude, chatgpt, gemini".data) :=
  ⟨c7_invalid_identifier_handling.1 ⟨[], [], []⟩ "gpt5".data "debater".data (by decide),
   c7_invalid_identifier_handling.2.1 ⟨[], [], []⟩ "claude".data "boss".data
     (by decide) (by decide),
   c7_invalid_identifier_handling.2.2.1 ⟨[], [], []⟩ "gpt5".data "John".data (by decide),
   c7_invalid_identifier_handling.2.2.2 ⟨[], []⟩ "gpt5".data "John".data [] (by decide)⟩

/-- C1: round completion gate.  (i) `completed_speakers ⊆ speaker_order` is
preserved by every `advance_debate` call; (ii) the polled participant is never
one already in the completed set; (iii) while the poll does not complete the
round, the call emits exactly one response — the polled speaker's — leaves the
state unchanged and extends the completed set by exactly that speaker;
(iv) the state changes only when every participant in the order has spoken
(is completed or is the participant polled by this very call); (v) when the
poll completes the round at the round cap, the call clears the completed set —
it ends `COMPLETE` with `completed_speakers = []`; (vi) when the poll
completes the round below the cap, the call advances the state by one round
and clears the completed set: the result holds exactly the first speaker of
the order polled afresh from the EMPTY set, per the in-place reset and the
synchronous cascade of debate_manager.py:206-220; (vii) on the concrete
three-participant Round-1 debate, the first two calls emit one response each
without transitioning, accumulating `[claude]` then `[claude, chatgpt]`, and
the third call transitions to Round 2 with the completed set cleared and
re-populated with only the new round's first polled speaker. -/
theorem c1_round_completion_gate (gen : PyStr → DebateState → PyStr)
    (chars : PyStr → Option PyStr) (st : DebateManager.State)
    (hnum : st.state.isNumberedRound = true)
    (hsub : ∀ x ∈ st.completed_speakers, x ∈ st.speaker_order)
    (hndc : st.completed_speakers.Nodup) :
    (∀ st₂ : DebateManager.State,
      (∀ x ∈ st₂.completed_speakers, x ∈ st₂.speaker_order) →
      ∀ x ∈ (DebateManager.advance_debate gen chars st₂).1.completed_speakers,
        x ∈ (DebateManager.advance_debate gen chars st₂).1.speaker_order) ∧
    (∀ s, List.find? (fun x => x ∉ st.completed_speakers) st.speaker_order = some s →
      s ∉ st.completed_speakers) ∧
    (∀ s, List.find? (fun x => x ∉ st.completed_speakers) st.speaker_order = some s →
      st.completed_speakers.length + 1 ≠ st.speaker_order.length →
      (DebateManager.advance_debate gen chars st).2.map Msg.sender = [s] ∧
      (DebateManager.advance_debate gen chars st).1.state = st.state ∧
      (DebateManager.advance_debate gen chars st).1.completed_speakers =
        st.completed_speakers ++ [s]) ∧
    ((DebateManager.advance_debate gen chars st).1.state ≠ st.state →
      ∀ x ∈ st.speaker_order, x ∈ st.completed_speakers ∨
        List.find? (fun y => y ∉ st.completed_speakers) st.speaker_order = some x) ∧
    (∀ s, List.find? (fun x => x ∉ st.completed_speakers) st.speaker_order = some s →
      st.completed_speakers.length + 1 = st.speaker_order.length →
      ¬ st.state.value < min st.rounds 4 →
      (DebateManager.advance_debate gen chars st).1.state = DebateState.COMPLETE ∧
      (DebateManager.advance_debate gen chars st).1.completed_speakers = []) ∧
    (∀ s, List.find? (fun x => x ∉ st.completed_speakers) st.speaker_order = some s →
      st.completed_speakers.length + 1 = st.speaker_order.length →
      st.state.value < min st.rounds 4 →
      2 ≤ st.speaker_order.length →
      ∃ s₂, List.find? (fun x => x ∉ ([] : List PyStr)) st.speaker_order = some s₂ ∧
        (DebateManager.advance_debate gen chars st).1.state =
          DebateState.ofValue (st.state.value + 1) ∧
        (DebateManager.advance_debate gen chars st).1.completed_speakers = [s₂]) ∧
    ((DebateManager.debateResp3 0).map Msg.sender = ["claude".data] ∧
      (DebateManager.debateTrace3 1).state = DebateState.ROUND_1_OPENING ∧
      (DebateManager.debateTrace3 1).completed_speakers = ["claude".data] ∧
      (DebateManager.debateResp3 1).map Msg.sender = ["chatgpt".data] ∧
      (DebateManager.debateTrace3 2).state = DebateState.ROUND_1_OPENING ∧
      (DebateManager.debateTrace3 2).completed_speakers =
        ["claude".data, "chatgpt".data] ∧
      (DebateManager.debateResp3 2).map Msg.sender =
        ["gemini".data, "system".data, "claude".data] ∧
      (DebateManager.debateTrace3 3).state = DebateState.ROUND_2_QUESTIONING ∧
      (DebateManager.debateTrace3 3).completed_speakers = ["claude".data]) := by
  refine ⟨?_, ?_, ?_, ?_, ?_, ?_, by decide, by decide, by decide, by decide,
    by decide, by decide, by decide, by decide, by decide⟩
  · intro st₂ h
    exact DebateManager.advanceDebateAux_completed_subset gen chars 8 st₂ h
  · intro s hfind
    have := List.find?_some hfind
    simpa using this
  · intro s hfind hlen
    have hnotmem : s ∉ st.completed_speakers := by
      have := List.find?_some hfind
      simpa using this
    have hadd : pySetAdd st.completed_speakers s = st.completed_speakers ++ [s] := by
      simp [pySetAdd, hnotmem]
    have hlen' : (pySetAdd st.completed_speakers s).length ≠ st.speaker_order.length := by
      rw [hadd]
      simpa using hlen
    have hstep := DebateManager.advanceDebateAux_step_incomplete gen chars 7 st s
      hnum hfind hlen'
    rw [hadd] at hstep
    exact hstep
  · intro hne x hx
    cases hfind : List.find? (fun y => y ∉ st.completed_speakers) st.speaker_order with
    | none =>
      left
      have := List.find?_eq_none.mp hfind x hx
      simpa using this
    | some s =>
      have hnotmem : s ∉ st.completed_speakers := by
        have := List.find?_some hfind
        simpa using this
      have hsmem : s ∈ st.speaker_order := List.mem_of_find?_eq_some hfind
      by_cases hlen : st.completed_speakers.length + 1 = st.speaker_order.length
      · have hnodup : (st.completed_speakers ++ [s]).Nodup := by
          rw [List.nodup_append]
          exact ⟨hndc, List.nodup_singleton s, by
            intro y hy hy2
            rw [List.mem_singleton] at hy2
            exact hnotmem (hy2 ▸ hy)⟩
        have hsubset : (st.completed_speakers ++ [s]) ⊆ st.speaker_order := by
          intro y hy
          rcases List.mem_append.mp hy with hy | hy
          · exact hsub y hy
          · rw [List.mem_singleton.mp hy]
            exact hsmem
        have hperm : (st.completed_speakers ++ [s]).Perm st.speaker_order := by
          refine (List.subperm_of_subset hnodup hsubset).perm_of_length_le ?_
          simp [hlen]
        have hx' : x ∈ st.completed_speakers ++ [s] := hperm.symm.subset hx
        rcases List.mem_append.mp hx' with hx' | hx'
        · exact Or.inl hx'
        · exact Or.inr (congrArg some (List.mem_singleton.mp hx').symm)
      · exfalso
        have hadd : pySetAdd st.completed_speakers s = st.completed_speakers ++ [s] := by
          simp [pySetAdd, hnotmem]
        have hlen' : (pySetAdd st.completed_speakers s).length ≠
            st.speaker_order.length := by
          rw [hadd]
          simpa using hlen
        have hstep := DebateManager.advanceDebateAux_step_incomplete gen chars 7 st s
          hnum hfind hlen'
        exact hne hstep.2.1
  · intro s hfind hlen hval
    have hnotmem : s ∉ st.completed_speakers := by
      have := List.find?_some hfind
      simpa using this
    have hadd : pySetAdd st.completed_speakers s = st.completed_speakers ++ [s] := by
      simp [pySetAdd, hnotmem]
    have hlen' : (pySetAdd st.completed_speakers s).length = st.speaker_order.length := by
      rw [hadd]
      simpa using hlen
    exact DebateManager.advanceDebateAux_step_complete_limit gen chars 7 st s
      hnum hfind hlen' hval
  · intro s hfind hlen hval hord
    have hnotmem : s ∉ st.completed_speakers := by
      have := List.find?_some hfind
      simpa using this
    have hadd : pySetAdd st.completed_speakers s = st.completed_speakers ++ [s] := by
      simp [pySetAdd, hnotmem]
    have hlen' : (pySetAdd st.completed_speakers s).length = st.speaker_order.length := by
      rw [hadd]
      simpa using hlen
    obtain ⟨st₅, heq5, h5c, h5s, h5o, h5r⟩ :=
      DebateManager.advanceDebateAux_step_complete_advance gen chars 6 st s
        hnum hfind hlen' hval
    obtain ⟨a, rest, hor⟩ : ∃ a rest, st.speaker_order = a :: rest := by
      cases ho : st.speaker_order with
      | nil =>
        rw [ho] at hord
        simp at hord
      | cons a rest => exact ⟨a, rest, rfl⟩
    have hfind2 : List.find? (fun x => decide (x ∉ ([] : List PyStr)))
        st.speaker_order = some a := by
      rw [hor]
      exact List.find?_cons_of_pos _ (by simp)
    have hfind5 : List.find? (fun x => decide (x ∉ st₅.completed_speakers))
        st₅.speaker_order = some a := by
      rw [h5c, h5o]
      exact hfind2
    have hnum5 : st₅.state.isNumberedRound = true := by
      rw [h5s]
      exact (DebateManager.ofValue_succ_facts st.state st.rounds hnum hval).1
    have hlen5 : (pySetAdd st₅.completed_speakers a).length ≠
        st₅.speaker_order.length := by
      rw [h5c, h5o]
      have hone : (pySetAdd ([] : List PyStr) a).length = 1 := by
        simp [pySetAdd]
      rw [hone]
      omega
    have hstep := DebateManager.advanceDebateAux_step_incomplete gen chars 6 st₅ a
      hnum5 hfind5 hlen5
    have headv : (DebateManager.advance_debate gen chars st).1 =
        (DebateManager.advanceDebateAux gen chars (6 + 1) st₅).1 := heq5
    refine ⟨a, hfind2, ?_, ?_⟩
    · rw [headv, hstep.2.1, h5s]
    · rw [headv, hstep.2.2, h5c]
      simp [pySetAdd]

/-- Witness for C1: the first call of the three-participant Round-1 trace. -/
theorem c1_round_completion_gate_witness :
    (DebateManager.advance_debate (fun _ _ => []) (fun _ => none)
      ⟨.ROUND_1_OPENING, [], 4, ["claude".data, "chatgpt".data, "gemini".data],
       [], [], [], [], [], [], false, []⟩).2.map Msg.sender = ["claude".data] ∧
    (DebateManager.advance_debate (fun _ _ => []) (fun _ => none)
      ⟨.ROUND_1_OPENING, [], 4, ["claude".data, "chatgpt".data, "gemini".data],
       [], [], [], [], [], [], false, []⟩).1.state = .ROUND_1_OPENING ∧
    (DebateManager.advance_debate (fun _ _ => []) (fun _ => none)
      ⟨.ROUND_1_OPENING, [], 4, ["claude".data, "chatgpt".data, "gemini".data],
       [], [], [], [], [], [], false, []⟩).1.completed_speakers =
      [] ++ ["claude".data] :=
  (c1_round_completion_gate (fun _ _ => []) (fun _ => none)
    ⟨.ROUND_1_OPENING, [], 4, ["claude".data, "chatgpt".data, "gemini".data],
     [], [], [], [], [], [], false, []⟩
    (by decide) (by decide) (by decide)).2.2.1 "claude".data
    (by decide) (by decide)
